import Mathlib

/-!
# MNIST dataset parser (`MNISTParser.h`)

A shallow embedding of `MNISTDataset::Parse` and `MNISTDataset::Initialize`.

Modelling conventions.

* A file is the list of its bytes; a path that cannot be opened is `none`.
* A `FILE` is the list of bytes not yet read together with the end-of-file
  indicator.  As in C, the indicator is raised only by a read that runs into
  the end of the data, never by reading the last byte itself.
* The heap block of `float`s is a list of cells.  A cell is `none` while it
  has never been written (the block comes from `malloc`), and `some v` once
  the number `v` has been stored.  Every stored number is an integer in
  `0..255`, which a `float` represents exactly, so the cell holds the number.
* `size_t` is 64 bits wide; every `size_t` product and sum is taken modulo
  `2 ^ 64`.
* A pointer into the heap block is kept as the number of `float` slots
  between the start of the block and the pointer.  Adding a `size_t` to a
  `float*` wraps in the 64-bit address space, that is at `2 ^ 62` slots.
* `malloc` is taken to succeed: the source has no path for a null result.
* `assert` is active (no `NDEBUG`): a failed assertion ends the call with
  `Outcome.assertionFailed`.  The program's own `main` calls `Parse` inside
  an `assert`, so it parses anything only when assertions are active.
* A store outside the allocated block is undefined behaviour; the model stops
  with `Outcome.invalidWrite`.
* A variable that a failed read did not fill has no value the program
  determines.  The value the program then observes is supplied by an
  `Indeterminate` oracle, so that theorems quantified over the oracle hold
  for every value such a variable can have.
-/

set_option maxRecDepth 8000

namespace MNIST

/-- One byte of a file. -/
abbrev Byte := Fin 256

/-- One `float` slot of the heap block: `none` until it is written. -/
abbrev Cell := Option Nat

/-- Number of values of `size_t`. -/
def sizeMod : Nat := 2 ^ 64

/-- Product of two `size_t` values. -/
def mulSz (a b : Nat) : Nat := (a * b) % sizeMod

/-- Sum of two `size_t` values. -/
def addSz (a b : Nat) : Nat := (a + b) % sizeMod

/-- Number of `float` slots in the 64-bit address space. -/
def ptrMod : Nat := 2 ^ 62

/-- The pointer `p + k` for a `float*` at slot `p` and a `size_t` value `k`. -/
def ptrAdd (p k : Nat) : Nat := (p + k) % ptrMod

/-- Values observed in variables that a failed read left unfilled:
`word k` for the `k`-th header read (`0..3` image, `4..5` label), `pixel s`
for the pixel destined to buffer slot `s`, `cat n` for the label of record `n`. -/
structure Indeterminate where
  word : Nat → Nat
  pixel : Nat → Byte
  cat : Nat → Byte

/-- An open stream: the bytes still unread and the end-of-file indicator. -/
structure FILE where
  unread : List Byte
  eof : Bool

/-- The C library call `feof`. -/
def feof (f : FILE) : Bool := f.eof

/-- The value a little-endian host finds in a `uint32_t` filled with the first
four bytes of `l`. -/
def hostWord (l : List Byte) : Nat :=
  (l.getD 0 0).val + (l.getD 1 0).val * 2 ^ 8 + (l.getD 2 0).val * 2 ^ 16
    + (l.getD 3 0).val * 2 ^ 24

/-- Reading one `uint32_t` with `fread_s`: the value read, if four bytes were
there, and the stream afterwards.  A short read consumes what is left and
raises the end-of-file indicator. -/
def fread_s_u32 (f : FILE) : Option Nat × FILE :=
  if 4 ≤ f.unread.length then
    (some (hostWord f.unread), { unread := f.unread.drop 4, eof := f.eof })
  else
    (none, { unread := [], eof := true })

/-- Reading one `uint8_t` with `fread_s`. -/
def fread_s_u8 (f : FILE) : Option Byte × FILE :=
  match f.unread with
  | [] => (none, { unread := [], eof := true })
  | b :: rest => (some b, { unread := rest, eof := f.eof })

/-- The intrinsic `_byteswap_ulong` on a 32-bit value. -/
def _byteswap_ulong (v : Nat) : Nat :=
  (v % 256) * 2 ^ 24 + (v / 2 ^ 8 % 256) * 2 ^ 16 + (v / 2 ^ 16 % 256) * 2 ^ 8
    + (v / 2 ^ 24 % 256)

/-- The class `MNISTDataset`.  `m_buffer` is the heap block (`none` is
`nullptr`); `m_imageBuffer` and `m_categoryBuffer` are pointers into it, kept
as slot offsets from its start (`none` is `nullptr`). -/
structure MNISTDataset where
  m_count : Nat
  m_width : Nat
  m_height : Nat
  m_imageSize : Nat
  m_imageBuffer : Option Nat
  m_categoryBuffer : Option Nat
  m_buffer : Option (List Cell)
  deriving DecidableEq

/-- The constructor `MNISTDataset()`. -/
def MNISTDataset.new : MNISTDataset :=
  { m_count := 0, m_width := 0, m_height := 0, m_imageSize := 0,
    m_imageBuffer := none, m_categoryBuffer := none, m_buffer := none }

/-- The constant `c_categoryCount`. -/
def c_categoryCount : Nat := 10

/-- Size of a `float` in bytes. -/
def sizeofFloat : Nat := 4

def GetImageWidth (d : MNISTDataset) : Nat := d.m_width

def GetImageHeight (d : MNISTDataset) : Nat := d.m_height

def GetImageCount (d : MNISTDataset) : Nat := d.m_count

def GetImageSize (d : MNISTDataset) : Nat := d.m_imageSize

def GetImageData (d : MNISTDataset) : Option Nat := d.m_imageBuffer

def GetCategoryData (d : MNISTDataset) : Option Nat := d.m_categoryBuffer

/-- The number found at `p[k]` for a pointer `p` into the heap block: `none`
when the pointer is null, the slot lies outside the block, or the slot was
never written. -/
def deref (d : MNISTDataset) (p : Option Nat) (k : Nat) : Option Nat :=
  match d.m_buffer, p with
  | some cells, some base => (cells.getD (base + k) none)
  | _, _ => none

/-- The private method `Initialize`.  The block has as many slots as the byte
count passed to `malloc` holds `float`s; `m_imageBuffer` is the start of the
block and `m_categoryBuffer` the pointer sum
`m_imageBuffer + (m_count * m_width * m_height)`. -/
def Initialize (_self : MNISTDataset) (width height count : Nat) : MNISTDataset :=
  let m_width := width
  let m_height := height
  let m_imageSize := mulSz m_width m_height
  let m_count := count
  let bufferSize :=
    addSz (mulSz (mulSz m_count m_width) m_height) (mulSz m_count c_categoryCount)
  let bytes := mulSz bufferSize sizeofFloat
  { m_count := m_count, m_width := m_width, m_height := m_height,
    m_imageSize := m_imageSize,
    m_buffer := some (List.replicate (bytes / sizeofFloat) none),
    m_imageBuffer := some 0,
    m_categoryBuffer := some (ptrAdd 0 (mulSz (mulSz m_count m_width) m_height)) }

/-- The assertions of `Parse`, in source order. -/
inductive Assertion where
  | imageNotAtEnd
  | imageMagic
  | imageCount
  | imageRows
  | imageCols
  | labelNotAtEnd
  | labelMagic
  | labelCount
  | labelRange
  deriving DecidableEq

/-- How a call of `Parse` ends. -/
inductive Outcome where
  | returned (code : Int)
  | assertionFailed (a : Assertion)
  | invalidWrite
  deriving DecidableEq

/-- The image-header part of `Parse`: four `fread_s` calls with their
assertions.  On success: count, rows, columns and the image stream. -/
def ParseImageHeader (J : Indeterminate) (img : List Byte) :
    Except Assertion (Nat × Nat × Nat × FILE) :=
  let fimg : FILE := { unread := img, eof := false }
  -- Read magic number
  if feof fimg then Except.error Assertion.imageNotAtEnd else
  let r := fread_s_u32 fimg
  let value := r.1.getD (J.word 0 % 2 ^ 32)
  let fimg := r.2
  if _byteswap_ulong value ≠ 0x00000803 then Except.error Assertion.imageMagic else
  -- Read count
  if feof fimg then Except.error Assertion.imageNotAtEnd else
  let r := fread_s_u32 fimg
  let value := r.1.getD (J.word 1 % 2 ^ 32)
  let fimg := r.2
  let count := _byteswap_ulong value
  if ¬ (count > 0) then Except.error Assertion.imageCount else
  -- Read rows
  if feof fimg then Except.error Assertion.imageNotAtEnd else
  let r := fread_s_u32 fimg
  let value := r.1.getD (J.word 2 % 2 ^ 32)
  let fimg := r.2
  let rows := _byteswap_ulong value
  if ¬ (rows > 0) then Except.error Assertion.imageRows else
  -- Read cols
  if feof fimg then Except.error Assertion.imageNotAtEnd else
  let r := fread_s_u32 fimg
  let value := r.1.getD (J.word 3 % 2 ^ 32)
  let fimg := r.2
  let cols := _byteswap_ulong value
  if ¬ (cols > 0) then Except.error Assertion.imageCols else
  Except.ok (count, rows, cols, fimg)

/-- The label-header part of `Parse`: two `fread_s` calls with their
assertions, `count` being the count read from the image stream.  On success:
the label stream. -/
def ParseLabelHeader (J : Indeterminate) (lbl : List Byte) (count : Nat) :
    Except Assertion FILE :=
  let flabel : FILE := { unread := lbl, eof := false }
  -- Read magic number (label)
  if feof flabel then Except.error Assertion.labelNotAtEnd else
  let r := fread_s_u32 flabel
  let value := r.1.getD (J.word 4 % 2 ^ 32)
  let flabel := r.2
  if _byteswap_ulong value ≠ 0x00000801 then Except.error Assertion.labelMagic else
  -- Read label count
  if feof flabel then Except.error Assertion.labelNotAtEnd else
  let r := fread_s_u32 flabel
  let value := r.1.getD (J.word 5 % 2 ^ 32)
  let flabel := r.2
  -- The count of the labels needs to match the count of the image data
  if _byteswap_ulong value ≠ count then Except.error Assertion.labelCount else
  Except.ok flabel

/-- The header part of `Parse`: the image header, then the label header.  On
success: count, rows, columns and the two streams. -/
def ParseHeaders (J : Indeterminate) (img lbl : List Byte) :
    Except Assertion (Nat × Nat × Nat × FILE × FILE) :=
  match ParseImageHeader J img with
  | Except.error a => Except.error a
  | Except.ok (count, rows, cols, fimg) =>
    match ParseLabelHeader J lbl count with
    | Except.error a => Except.error a
    | Except.ok flabel => Except.ok (count, rows, cols, fimg, flabel)

/-- A counted loop `for (size_t i = start; i < start + n; ++i) body`; `none`
as soon as the body fails. -/
def forLoop {σ : Type} (body : Nat → σ → Option σ) : Nat → Nat → σ → Option σ
  | 0, _, s => some s
  | n + 1, i, s =>
    match body i s with
    | none => none
    | some s1 => forLoop body n (i + 1) s1

/-- The body of the inner pixel loop: read one byte from the image stream and
store it at `imageBuffer[j * m_width + i]`, where
`imageBuffer = &m_imageBuffer[counter * m_imageSize]`.  `none` when the slot
lies outside the heap block. -/
def pixelStep (J : Indeterminate) (d : MNISTDataset) (ib counter j i : Nat)
    (s : FILE × List Cell) : Option (FILE × List Cell) :=
  let r := fread_s_u8 s.1
  let imageBuffer := ptrAdd ib (mulSz counter d.m_imageSize)
  let slot := ptrAdd imageBuffer (addSz (mulSz j d.m_width) i)
  let pixel : Byte := r.1.getD (J.pixel slot)
  if slot < s.2.length then some (r.2, s.2.set slot (some pixel.val)) else none

/-- The two nested pixel loops of one record. -/
def readImage (J : Indeterminate) (d : MNISTDataset) (ib counter : Nat)
    (s : FILE × List Cell) : Option (FILE × List Cell) :=
  forLoop (fun j s1 => forLoop (fun i s2 => pixelStep J d ib counter j i s2) d.m_width 0 s1)
    d.m_height 0 s

/-- The `while (!feof(fimg) && !feof(flabel))` loop, entered with the label
stream not at end-of-file.  Every iteration reads exactly one label byte, so
the loop is a recursion on the unread label bytes: with none left the label
read fails, the indicator of the label stream is raised and the iteration is
the last one.  Result: the outcome and the heap block (after an invalid store
or a failed assertion: the block as the last completed step left it). -/
def decodeLoop (J : Indeterminate) (d : MNISTDataset) (ib cb : Nat) :
    List Byte → FILE → Nat → List Cell → Outcome × List Cell
  | labels, fimg, counter, cells =>
    if feof fimg then (Outcome.returned 0, cells) else
    match readImage J d ib counter (fimg, cells) with
    | none => (Outcome.invalidWrite, cells)
    | some (fimg1, cells1) =>
      match labels with
      | [] =>
        let cat : Byte := J.cat counter
        if ¬ (0 ≤ cat.val ∧ cat.val ≤ 9) then
          (Outcome.assertionFailed Assertion.labelRange, cells1)
        else if ptrAdd cb counter < cells1.length then
          (Outcome.returned 0, cells1.set (ptrAdd cb counter) (some cat.val))
        else (Outcome.invalidWrite, cells1)
      | cat :: rest =>
        if ¬ (0 ≤ cat.val ∧ cat.val ≤ 9) then
          (Outcome.assertionFailed Assertion.labelRange, cells1)
        else if ptrAdd cb counter < cells1.length then
          decodeLoop J d ib cb rest fimg1 (counter + 1)
            (cells1.set (ptrAdd cb counter) (some cat.val))
        else (Outcome.invalidWrite, cells1)

/-- The method `Parse`.  `imageFile` and `labelFile` are the contents of the
two files, `none` when `fopen_s` fails.  Result: how the call ends and the
object afterwards. -/
def Parse (J : Indeterminate) (self : MNISTDataset) (imageFile labelFile : Option (List Byte)) :
    Outcome × MNISTDataset :=
  match imageFile with
  | none => (Outcome.returned 1, self)
  | some img =>
    match labelFile with
    | none => (Outcome.returned 1, self)
    | some lbl =>
      match ParseHeaders J img lbl with
      | Except.error a => (Outcome.assertionFailed a, self)
      | Except.ok (count, rows, cols, fimg, flabel) =>
        let d := Initialize self cols rows count
        match d.m_buffer, d.m_imageBuffer, d.m_categoryBuffer with
        | some cells, some ib, some cb =>
          if feof flabel then (Outcome.returned 0, d) else
          let r := decodeLoop J d ib cb flabel.unread fimg 0 cells
          (r.1, { d with m_buffer := some r.2 })
        | _, _, _ => (Outcome.invalidWrite, d)

/-- The big-endian 32-bit value at offset `off` of a stream. -/
def be32 (s : List Byte) (off : Nat) : Nat :=
  (s.getD off 0).val * 2 ^ 24 + (s.getD (off + 1) 0).val * 2 ^ 16
    + (s.getD (off + 2) 0).val * 2 ^ 8 + (s.getD (off + 3) 0).val

/-- Indeterminate values as a typical build shows them: the variable still
holds what the previous read left (pixel 200, label 3), header zero. -/
def stale : Indeterminate :=
  { word := fun _ => 0, pixel := fun _ => 200, cat := fun _ => 3 }

/-- Indeterminate values of a build in which `value` holds the host word `v`
after a failed header read (pixel 200, label 3 as in `stale`). -/
def keeps (v : Nat) : Indeterminate :=
  { word := fun _ => v, pixel := fun _ => 200, cat := fun _ => 3 }

/-- Image file cut inside its header: magic, count 1, rows 1 and only three
bytes `00 00 00` of the columns field. -/
def img15 : List Byte := [0, 0, 8, 3, 0, 0, 0, 1, 0, 0, 0, 1, 0, 0, 0]

/-- Image file cut inside its header: magic, count 4, rows `2^31` and only
three bytes `80 00 00` of the columns field. -/
def img15wide : List Byte := [0, 0, 8, 3, 0, 0, 0, 4, 128, 0, 0, 0, 128, 0, 0]

/-- Image file: one image of 1 x 1, pixel 200. -/
def img111 : List Byte := [0, 0, 8, 3, 0, 0, 0, 1, 0, 0, 0, 1, 0, 0, 0, 1, 200]

/-- Label file: one label, 3. -/
def lbl1 : List Byte := [0, 0, 8, 1, 0, 0, 0, 1, 3]

/-- Image file: one image of 4 x 4. -/
def img144 : List Byte :=
  [0, 0, 8, 3, 0, 0, 0, 1, 0, 0, 0, 4, 0, 0, 0, 4,
   10, 11, 12, 13, 20, 21, 22, 23, 30, 31, 32, 33, 40, 41, 42, 43]

/-- Image file: two images of 2 x 2. -/
def img222 : List Byte :=
  [0, 0, 8, 3, 0, 0, 0, 2, 0, 0, 0, 2, 0, 0, 0, 2, 10, 11, 12, 13, 20, 21, 22, 23]

/-- Image file: header declaring two images of 2 x 2, holding only the first. -/
def img222short : List Byte :=
  [0, 0, 8, 3, 0, 0, 0, 2, 0, 0, 0, 2, 0, 0, 0, 2, 10, 11, 12, 13]

/-- Image file: valid magic, count 0, rows 2, columns 2. -/
def imgCount0 : List Byte := [0, 0, 8, 3, 0, 0, 0, 0, 0, 0, 0, 2, 0, 0, 0, 2]

/-- Image file: valid magic, count 1, rows 0, columns 2. -/
def imgRows0 : List Byte := [0, 0, 8, 3, 0, 0, 0, 1, 0, 0, 0, 0, 0, 0, 0, 2]

/-- Image file: magic with its lowest bit flipped (`0x802`), else as `img111`. -/
def imgBadMagic : List Byte := [0, 0, 8, 2, 0, 0, 0, 1, 0, 0, 0, 1, 0, 0, 0, 1, 200]

/-- Label file: magic with its lowest bit flipped (`0x800`), one label. -/
def lblBadMagic : List Byte := [0, 0, 8, 0, 0, 0, 0, 1, 3]

/-- Image file: five images of 1 x 1. -/
def img511 : List Byte :=
  [0, 0, 8, 3, 0, 0, 0, 5, 0, 0, 0, 1, 0, 0, 0, 1, 10, 20, 30, 40, 50]

/-- Label file: count 4, four labels. -/
def lbl4 : List Byte := [0, 0, 8, 1, 0, 0, 0, 4, 1, 2, 3, 4]

/-- Label file: count 2, labels 3 and 10. -/
def lbl2bad : List Byte := [0, 0, 8, 1, 0, 0, 0, 2, 3, 10]

/-- Image file: header declaring one image of 1 x 1, followed by two pixel
bytes (one trailing byte). -/
def img111trail : List Byte := [0, 0, 8, 3, 0, 0, 0, 1, 0, 0, 0, 1, 0, 0, 0, 1, 200, 201]

/-- Label file: header declaring one label, followed by two label bytes. -/
def lbl1trail : List Byte := [0, 0, 8, 1, 0, 0, 0, 1, 3, 4]

/-- Label file: two labels, 3 and 7. -/
def lbl2 : List Byte := [0, 0, 8, 1, 0, 0, 0, 2, 3, 7]

/-- The two pixel loops of a record seen as a single loop over its slots:
read one byte and store it at `base[k]`. -/
def flatStep (J : Indeterminate) (base k : Nat) (s : FILE × List Cell) :
    Option (FILE × List Cell) :=
  let r := fread_s_u8 s.1
  let slot := ptrAdd base k
  let pixel : Byte := r.1.getD (J.pixel slot)
  if slot < s.2.length then some (r.2, s.2.set slot (some pixel.val)) else none

/-- The heap block after the bytes `bs` were stored at slots `s, s + 1, ...`. -/
def writeBytes : List Byte → Nat → List Cell → List Cell
  | [], _, cells => cells
  | b :: bs, s, cells => writeBytes bs (s + 1) (cells.set s (some b.val))

/-- The values observed by `n` failed pixel reads destined to slots
`s, s + 1, ...`. -/
def junkBytes (J : Indeterminate) : Nat → Nat → List Byte
  | _, 0 => []
  | s, n + 1 => J.pixel s :: junkBytes J (s + 1) n

/-- The heap block after complete records were decoded: record `n` takes its
`S` pixels from the front of `ps` and its label from the front of the label
list. -/
def writeRecords (S ib cb : Nat) : List Byte → List Byte → Nat → List Cell → List Cell
  | [], _, _, cells => cells
  | b :: ls, ps, n, cells =>
    writeRecords S ib cb ls (ps.drop S) (n + 1)
      ((writeBytes (ps.take S) (ib + n * S) cells).set (cb + n) (some b.val))

/-- The request `bufferSize * sizeof(float)` that `Initialize` computes for
these header values is representable in `size_t`. -/
def AllocationFits (c h w : Nat) : Prop :=
  (c * w * h + c * c_categoryCount) * sizeofFloat < sizeMod

instance (c h w : Nat) : Decidable (AllocationFits c h w) := by
  unfold AllocationFits; infer_instance

/-- Both headers are present and valid and agree: magic numbers, non-zero
count `c`, rows `h` and columns `w`, and the same count in the label stream. -/
def ValidHeaders (img lbl : List Byte) (c h w : Nat) : Prop :=
  16 ≤ img.length ∧ 8 ≤ lbl.length ∧
  be32 img 0 = 0x00000803 ∧ be32 img 4 = c ∧ be32 img 8 = h ∧ be32 img 12 = w ∧
  be32 lbl 0 = 0x00000801 ∧ be32 lbl 4 = c ∧ 0 < c ∧ 0 < h ∧ 0 < w

instance (img lbl : List Byte) (c h w : Nat) : Decidable (ValidHeaders img lbl c h w) := by
  unfold ValidHeaders; infer_instance

/-- A well-formed pair of streams: valid headers followed by exactly
`c * h * w` pixel bytes, and by exactly `c` label bytes each in `0..9`. -/
def WellFormedPair (img lbl : List Byte) (c h w : Nat) : Prop :=
  ValidHeaders img lbl c h w ∧ img.length = 16 + c * h * w ∧ lbl.length = 8 + c ∧
  ∀ b ∈ lbl.drop 8, b.val ≤ 9

instance (img lbl : List Byte) (c h w : Nat) : Decidable (WellFormedPair img lbl c h w) := by
  unfold WellFormedPair; infer_instance

/-- A pair whose image stream is truncated by one record: valid headers
declaring `c` records, exactly `c - 1` complete records of pixel bytes, and a
well-formed label stream of `c` labels in `0..9`. -/
def TruncatedPair (img lbl : List Byte) (c h w : Nat) : Prop :=
  ValidHeaders img lbl c h w ∧ img.length = 16 + (c - 1) * h * w ∧ lbl.length = 8 + c ∧
  ∀ b ∈ lbl.drop 8, b.val ≤ 9

instance (img lbl : List Byte) (c h w : Nat) : Decidable (TruncatedPair img lbl c h w) := by
  unfold TruncatedPair; infer_instance

/-- The heap block once the `c` records of a well-formed pair are decoded. -/
def decodedCells (img lbl : List Byte) (c h w : Nat) : List Cell :=
  writeRecords (h * w) 0 (c * (h * w)) (lbl.drop 8) (img.drop 16) 0
    (List.replicate (c * (h * w) + c * 10) none)

/-- The heap block after the pixel loop of the iteration that follows the
last record: `h * w` indeterminate values stored from slot `c * (h * w)` on. -/
def overrunCells (J : Indeterminate) (img lbl : List Byte) (c h w : Nat) : List Cell :=
  writeBytes (junkBytes J (c * (h * w)) (h * w)) (c * (h * w)) (decodedCells img lbl c h w)

/-- The number at `GetImageData()[k]`. -/
def imageAt (d : MNISTDataset) (k : Nat) : Option Nat := deref d (GetImageData d) k

/-- The number at `GetCategoryData()[n]`. -/
def categoryAt (d : MNISTDataset) (n : Nat) : Option Nat := deref d (GetCategoryData d) n

/-- The value `bufferSize` that `Initialize` computes:
`m_count * m_width * m_height + m_count * c_categoryCount` in `size_t`. -/
def bufferSize (count width height : Nat) : Nat :=
  addSz (mulSz (mulSz count width) height) (mulSz count c_categoryCount)

/-- The byte count `bufferSize * sizeof(float)` that `Initialize` passes to
`malloc`. -/
def allocationBytes (count width height : Nat) : Nat :=
  mulSz (bufferSize count width height) sizeofFloat

/-- Number of `float` slots of the heap block, when there is one. -/
def allocatedSlots (d : MNISTDataset) : Option Nat := d.m_buffer.map List.length

/-- The image header is present and passes its assertions. -/
def ImageHeaderOK (img : List Byte) : Prop :=
  16 ≤ img.length ∧ be32 img 0 = 0x00000803 ∧ 0 < be32 img 4 ∧ 0 < be32 img 8 ∧
  0 < be32 img 12

/-- The malformed inputs that `Parse` checks for: a wrong image magic, a zero
count, rows or columns, a wrong label magic, a label count that differs from
the image count, or (with all `c` declared image records present) a label
byte above 9. -/
def DetectedError (img lbl : List Byte) : Prop :=
  (4 ≤ img.length ∧ be32 img 0 ≠ 0x00000803) ∨
  (16 ≤ img.length ∧ be32 img 0 = 0x00000803 ∧
    (be32 img 4 = 0 ∨ be32 img 8 = 0 ∨ be32 img 12 = 0)) ∨
  (ImageHeaderOK img ∧ 4 ≤ lbl.length ∧ be32 lbl 0 ≠ 0x00000801) ∨
  (ImageHeaderOK img ∧ 8 ≤ lbl.length ∧ be32 lbl 0 = 0x00000801 ∧
    be32 lbl 4 ≠ be32 img 4) ∨
  (∃ c h w n b, ValidHeaders img lbl c h w ∧ AllocationFits c h w ∧
    16 + c * h * w ≤ img.length ∧ n < c ∧ lbl[8 + n]? = some b ∧ 9 < b.val)

/-- The shape metadata invariant: the image size is width times height, and
once buffers are set up the label view is the pointer
`GetImageData() + GetImageCount() * GetImageSize()`, the product taken in
`size_t` and the sum in the 64-bit address space. -/
def ShapeInvariant (d : MNISTDataset) : Prop :=
  GetImageSize d = GetImageWidth d * GetImageHeight d ∧
  (d.m_buffer ≠ none → ∃ ib cb, GetImageData d = some ib ∧ GetCategoryData d = some cb ∧
    cb = ptrAdd ib (mulSz (GetImageCount d) (GetImageSize d)))

/-! ## Header decoding -/

theorem byteswap_hostWord (l : List Byte) : _byteswap_ulong (hostWord l) = be32 l 0 := by
  have h0 := (l.getD 0 0).isLt
  have h1 := (l.getD 1 0).isLt
  have h2 := (l.getD 2 0).isLt
  have h3 := (l.getD 3 0).isLt
  simp only [_byteswap_ulong, hostWord, be32, Nat.zero_add]
  norm_num
  omega

theorem be32_drop (l : List Byte) (k off : Nat) : be32 (l.drop k) off = be32 l (k + off) := by
  simp only [be32, List.getD_eq_getElem?_getD, List.getElem?_drop, Nat.add_assoc]

theorem fread_s_u32_ok (f : FILE) (h : 4 ≤ f.unread.length) :
    fread_s_u32 f = (some (hostWord f.unread), { unread := f.unread.drop 4, eof := f.eof }) := by
  simp [fread_s_u32, h]

theorem ParseImageHeader_magic (J : Indeterminate) (img : List Byte)
    (hlen : 4 ≤ img.length) (hm : be32 img 0 ≠ 0x00000803) :
    ParseImageHeader J img = Except.error Assertion.imageMagic := by
  simp [ParseImageHeader, feof, fread_s_u32_ok, hlen, byteswap_hostWord, hm]

/-- The image header, when its sixteen bytes are present. -/
theorem ParseImageHeader_present (J : Indeterminate) (img : List Byte) (hi : 16 ≤ img.length) :
    ParseImageHeader J img =
      if be32 img 0 ≠ 0x00000803 then Except.error Assertion.imageMagic
      else if ¬ (be32 img 4 > 0) then Except.error Assertion.imageCount
      else if ¬ (be32 img 8 > 0) then Except.error Assertion.imageRows
      else if ¬ (be32 img 12 > 0) then Except.error Assertion.imageCols
      else Except.ok (be32 img 4, be32 img 8, be32 img 12,
        { unread := img.drop 16, eof := false }) := by
  have h1 : 4 ≤ img.length := by omega
  have h2 : 4 ≤ img.length - 4 := by omega
  have h3 : 4 ≤ img.length - 8 := by omega
  have h4 : 4 ≤ img.length - 12 := by omega
  simp [ParseImageHeader, feof, fread_s_u32_ok, h1, h2, h3, h4, byteswap_hostWord, be32_drop]

theorem ParseLabelHeader_magic (J : Indeterminate) (lbl : List Byte) (count : Nat)
    (hlen : 4 ≤ lbl.length) (hm : be32 lbl 0 ≠ 0x00000801) :
    ParseLabelHeader J lbl count = Except.error Assertion.labelMagic := by
  simp [ParseLabelHeader, feof, fread_s_u32_ok, hlen, byteswap_hostWord, hm]

/-- The label header, when its eight bytes are present. -/
theorem ParseLabelHeader_present (J : Indeterminate) (lbl : List Byte) (count : Nat)
    (hl : 8 ≤ lbl.length) :
    ParseLabelHeader J lbl count =
      if be32 lbl 0 ≠ 0x00000801 then Except.error Assertion.labelMagic
      else if be32 lbl 4 ≠ count then Except.error Assertion.labelCount
      else Except.ok { unread := lbl.drop 8, eof := false } := by
  have h5 : 4 ≤ lbl.length := by omega
  have h6 : 4 ≤ lbl.length - 4 := by omega
  simp [ParseLabelHeader, feof, fread_s_u32_ok, h5, h6, byteswap_hostWord, be32_drop]

theorem ParseHeaders_imageMagic (J : Indeterminate) (img lbl : List Byte)
    (hlen : 4 ≤ img.length) (hm : be32 img 0 ≠ 0x00000803) :
    ParseHeaders J img lbl = Except.error Assertion.imageMagic := by
  simp only [ParseHeaders, ParseImageHeader_magic J img hlen hm]

theorem ParseHeaders_valid (J : Indeterminate) (img lbl : List Byte)
    (hi : 16 ≤ img.length) (hl : 8 ≤ lbl.length) :
    ParseHeaders J img lbl =
      if be32 img 0 ≠ 0x00000803 then Except.error Assertion.imageMagic
      else if ¬ (be32 img 4 > 0) then Except.error Assertion.imageCount
      else if ¬ (be32 img 8 > 0) then Except.error Assertion.imageRows
      else if ¬ (be32 img 12 > 0) then Except.error Assertion.imageCols
      else if be32 lbl 0 ≠ 0x00000801 then Except.error Assertion.labelMagic
      else if be32 lbl 4 ≠ be32 img 4 then Except.error Assertion.labelCount
      else Except.ok (be32 img 4, be32 img 8, be32 img 12,
        { unread := img.drop 16, eof := false }, { unread := lbl.drop 8, eof := false }) := by
  simp only [ParseHeaders, ParseImageHeader_present J img hi]
  split_ifs <;> simp only [ParseLabelHeader_present J lbl _ hl] <;> split_ifs <;> rfl

theorem ParseHeaders_labelMagic (J : Indeterminate) (img lbl : List Byte)
    (hi : 16 ≤ img.length) (hl : 4 ≤ lbl.length) (h1 : be32 img 0 = 0x00000803)
    (hc : 0 < be32 img 4) (hh : 0 < be32 img 8) (hw : 0 < be32 img 12)
    (hm : be32 lbl 0 ≠ 0x00000801) :
    ParseHeaders J img lbl = Except.error Assertion.labelMagic := by
  simp only [ParseHeaders, ParseImageHeader_present J img hi, h1, hc, hh, hw, ne_eq,
    not_true_eq_false, if_false, gt_iff_lt, ParseLabelHeader_magic J lbl _ hl hm]

/-- A label stream whose magic is wrong never gets past the assertions,
whatever the image stream holds. -/
theorem ParseHeaders_labelMagic_any (J : Indeterminate) (img lbl : List Byte)
    (hl : 4 ≤ lbl.length) (hm : be32 lbl 0 ≠ 0x00000801) :
    ∃ a, ParseHeaders J img lbl = Except.error a := by
  unfold ParseHeaders
  cases ParseImageHeader J img with
  | error a => exact ⟨a, rfl⟩
  | ok r =>
    obtain ⟨count, rows, cols, fimg⟩ := r
    exact ⟨Assertion.labelMagic, by simp only [ParseLabelHeader_magic J lbl count hl hm]⟩

theorem ParseHeaders_zero (J : Indeterminate) (img lbl : List Byte)
    (hi : 16 ≤ img.length) (h1 : be32 img 0 = 0x00000803)
    (hz : be32 img 4 = 0 ∨ be32 img 8 = 0 ∨ be32 img 12 = 0) :
    ParseHeaders J img lbl = Except.error
      (if be32 img 4 = 0 then Assertion.imageCount
       else if be32 img 8 = 0 then Assertion.imageRows else Assertion.imageCols) := by
  unfold ParseHeaders
  rw [ParseImageHeader_present J img hi, if_neg (by simp [h1])]
  by_cases z4 : be32 img 4 = 0
  · rw [if_pos (by omega), if_pos z4]
  · rw [if_neg (by omega), if_neg z4]
    by_cases z8 : be32 img 8 = 0
    · rw [if_pos (by omega), if_pos z8]
    · have z12 : be32 img 12 = 0 := (hz.resolve_left z4).resolve_left z8
      rw [if_neg (by omega), if_pos (by omega), if_neg z8]

/-- A successful pass over both headers yields the fields of the image header. -/
theorem ParseHeaders_ok_fields (J : Indeterminate) (img lbl : List Byte)
    (hi : 16 ≤ img.length) (count rows cols : Nat) (fimg flabel : FILE)
    (hok : ParseHeaders J img lbl = Except.ok (count, rows, cols, fimg, flabel)) :
    be32 img 0 = 0x00000803 ∧ count = be32 img 4 ∧ rows = be32 img 8 ∧ cols = be32 img 12 := by
  unfold ParseHeaders at hok
  rw [ParseImageHeader_present J img hi] at hok
  split_ifs at hok with c1 c2 c3 c4
  dsimp only at hok
  cases hlab : ParseLabelHeader J lbl (be32 img 4) with
  | error a => rw [hlab] at hok; cases hok
  | ok f =>
    rw [hlab] at hok
    simp only [Except.ok.injEq, Prod.mk.injEq] at hok
    refine ⟨by simpa using c1, hok.1.symm, hok.2.1.symm, hok.2.2.1.symm⟩

/-! ## Counted loops -/

theorem forLoop_congr {σ : Type} (f g : Nat → σ → Option σ) :
    ∀ (n a : Nat) (s : σ), (∀ i t, a ≤ i → i < a + n → f i t = g i t) →
      forLoop f n a s = forLoop g n a s := by
  intro n
  induction n with
  | zero => intro a s _; rfl
  | succ n ih =>
    intro a s h
    simp only [forLoop]
    rw [h a s (Nat.le_refl a) (by omega)]
    cases g a s with
    | none => rfl
    | some s1 => exact ih (a + 1) s1 (fun i t h1 h2 => h i t (by omega) (by omega))

theorem forLoop_add {σ : Type} (f : Nat → σ → Option σ) :
    ∀ (m n a : Nat) (s : σ),
      forLoop f (m + n) a s = (forLoop f m a s).bind (forLoop f n (a + m)) := by
  intro m
  induction m with
  | zero => intro n a s; simp [forLoop]
  | succ m ih =>
    intro n a s
    have e : m + 1 + n = (m + n) + 1 := by omega
    rw [e]
    simp only [forLoop]
    cases f a s with
    | none => rfl
    | some s1 =>
      simp only []
      rw [ih n (a + 1) s1]
      have e2 : a + 1 + m = a + (m + 1) := by omega
      rw [e2]

theorem forLoop_shift {σ : Type} (f : Nat → σ → Option σ) (b : Nat) :
    ∀ (n a : Nat) (s : σ),
      forLoop (fun i t => f (b + i) t) n a s = forLoop f n (b + a) s := by
  intro n
  induction n with
  | zero => intro a s; rfl
  | succ n ih =>
    intro a s
    simp only [forLoop]
    cases f (b + a) s with
    | none => rfl
    | some s1 => exact ih (a + 1) s1

theorem mulSz_eq (a b : Nat) (h : a * b < sizeMod) : mulSz a b = a * b := by
  simp [mulSz, Nat.mod_eq_of_lt h]

theorem addSz_eq (a b : Nat) (h : a + b < sizeMod) : addSz a b = a + b := by
  simp [addSz, Nat.mod_eq_of_lt h]

theorem ptrAdd_eq (p k : Nat) (h : p + k < ptrMod) : ptrAdd p k = p + k := by
  simp [ptrAdd, Nat.mod_eq_of_lt h]

theorem ptrMod_mul : ptrMod * 4 = sizeMod := by
  unfold ptrMod sizeMod; norm_num

theorem rows_flat (J : Indeterminate) (base w : Nat) (f : Nat → FILE × List Cell →
    Option (FILE × List Cell))
    (hf : ∀ j s, f j s = forLoop (flatStep J base) w (j * w) s) :
    ∀ (n j0 : Nat) (s : FILE × List Cell),
      forLoop f n j0 s = forLoop (flatStep J base) (n * w) (j0 * w) s := by
  intro n
  induction n with
  | zero => intro j0 s; simp [forLoop]
  | succ n ih =>
    intro j0 s
    have e : (n + 1) * w = w + n * w := by ring
    rw [e, forLoop_add (flatStep J base) w (n * w)]
    rw [forLoop, hf j0 s]
    cases forLoop (flatStep J base) w (j0 * w) s with
    | none => rfl
    | some s1 =>
      simp only [Option.bind]
      rw [ih (j0 + 1) s1]
      have e2 : (j0 + 1) * w = j0 * w + w := by ring
      rw [e2]

theorem pixelStep_eq_flatStep (J : Indeterminate) (d : MNISTDataset) (ib counter j i : Nat)
    (s : FILE × List Cell) :
    pixelStep J d ib counter j i s
      = flatStep J (ptrAdd ib (mulSz counter d.m_imageSize))
          (addSz (mulSz j d.m_width) i) s := rfl

theorem index_lt (h w j i : Nat) (hj : j < h) (hi : i < w) : j * w + i < h * w := by
  have h1 : (j + 1) * w ≤ h * w := Nat.mul_le_mul_right w (by omega)
  rw [Nat.add_mul, Nat.one_mul] at h1
  omega

/-- The nested pixel loops store the bytes of a record at consecutive slots. -/
theorem readImage_flat (J : Indeterminate) (d : MNISTDataset) (ib counter : Nat)
    (hwh : d.m_height * d.m_width < sizeMod) (s : FILE × List Cell) :
    readImage J d ib counter s
      = forLoop (flatStep J (ptrAdd ib (mulSz counter d.m_imageSize)))
          (d.m_height * d.m_width) 0 s := by
  have key := rows_flat J (ptrAdd ib (mulSz counter d.m_imageSize)) d.m_width
    (fun j s1 => forLoop (flatStep J (ptrAdd ib (mulSz counter d.m_imageSize))) d.m_width
      (j * d.m_width) s1) (fun _ _ => rfl) d.m_height 0 s
  rw [Nat.zero_mul] at key
  rw [← key]
  unfold readImage
  apply forLoop_congr
  intro j t _ hj
  have hj2 : j < d.m_height := by omega
  rw [← Nat.add_zero (j * d.m_width), ← forLoop_shift]
  apply forLoop_congr
  intro i t2 _ hi
  have hi2 : i < d.m_width := by omega
  have hlt := index_lt d.m_height d.m_width j i hj2 hi2
  have hjw : j * d.m_width < sizeMod := by omega
  rw [pixelStep_eq_flatStep, mulSz_eq _ _ hjw, addSz_eq _ _ (by omega)]

/-! ## One record -/

theorem writeBytes_length : ∀ (bs : List Byte) (s : Nat) (cells : List Cell),
    (writeBytes bs s cells).length = cells.length := by
  intro bs
  induction bs with
  | nil => intro s cells; rfl
  | cons b bs ih => intro s cells; simp [writeBytes, ih]

theorem writeBytes_frame : ∀ (bs : List Byte) (s : Nat) (cells : List Cell) (t : Nat),
    (t < s ∨ s + bs.length ≤ t) → (writeBytes bs s cells)[t]? = cells[t]? := by
  intro bs
  induction bs with
  | nil => intro s cells t _; rfl
  | cons b bs ih =>
    intro s cells t h
    simp only [writeBytes, List.length_cons] at h ⊢
    rw [ih (s + 1) _ t (by omega), List.getElem?_set_ne (by omega)]

theorem writeBytes_inside : ∀ (bs : List Byte) (s : Nat) (cells : List Cell) (k : Nat) (b : Byte),
    s + bs.length ≤ cells.length → bs[k]? = some b →
      (writeBytes bs s cells)[s + k]? = some (some b.val) := by
  intro bs
  induction bs with
  | nil => intro s cells k b _ h; simp at h
  | cons b0 bs ih =>
    intro s cells k b hlen h
    simp only [List.length_cons] at hlen
    cases k with
    | zero =>
      simp only [List.getElem?_cons_zero, Option.some.injEq] at h
      subst h
      simp only [writeBytes, Nat.add_zero]
      rw [writeBytes_frame _ _ _ _ (Or.inl (Nat.lt_succ_self s)),
        List.getElem?_set_self (by omega)]
    | succ k =>
      simp only [List.getElem?_cons_succ] at h
      have e : s + (k + 1) = s + 1 + k := by omega
      rw [e]
      simp only [writeBytes]
      exact ih (s + 1) _ k b (by simp; omega) h

/-- A record that is fully present in the image stream is stored as read. -/
theorem flat_full (J : Indeterminate) (base : Nat) :
    ∀ (ps : List Byte) (a : Nat) (tail : List Byte) (e : Bool) (cells : List Cell),
      base + a + ps.length ≤ cells.length → cells.length < ptrMod →
      forLoop (flatStep J base) ps.length a ({ unread := ps ++ tail, eof := e }, cells)
        = some ({ unread := tail, eof := e }, writeBytes ps (base + a) cells) := by
  intro ps
  induction ps with
  | nil => intro a tail e cells _ _; rfl
  | cons b ps ih =>
    intro a tail e cells h hp
    simp only [List.length_cons] at h
    have hlt : base + a < cells.length := by omega
    have hslot : ptrAdd base a = base + a := ptrAdd_eq _ _ (by omega)
    simp only [List.length_cons, forLoop, flatStep, fread_s_u8, List.cons_append, hslot, hlt,
      if_true, Option.getD_some, writeBytes]
    have := ih (a + 1) tail e (cells.set (base + a) (some b.val)) (by simp; omega)
      (by simp; omega)
    rw [this]
    rfl

/-- With the image stream exhausted, the pixel loop stores indeterminate
values and raises the end-of-file indicator. -/
theorem flat_eof (J : Indeterminate) (base : Nat) :
    ∀ (n a : Nat) (cells : List Cell), base + a + n ≤ cells.length →
      cells.length < ptrMod →
      forLoop (flatStep J base) n a ({ unread := [], eof := true }, cells)
        = some ({ unread := [], eof := true },
            writeBytes (junkBytes J (base + a) n) (base + a) cells) := by
  intro n
  induction n with
  | zero => intro a cells _ _; rfl
  | succ n ih =>
    intro a cells h hp
    have hlt : base + a < cells.length := by omega
    have hslot : ptrAdd base a = base + a := ptrAdd_eq _ _ (by omega)
    simp only [forLoop, flatStep, fread_s_u8, hslot, hlt, if_true, Option.getD_none, junkBytes,
      writeBytes]
    have := ih (a + 1) (cells.set (base + a) (some (J.pixel (base + a)).val)) (by simp; omega)
      (by simp; omega)
    rw [this]
    rfl

theorem flat_eof_first (J : Indeterminate) (base n : Nat) (hn : 0 < n) (e : Bool)
    (cells : List Cell) (h : base + n ≤ cells.length) (hp : cells.length < ptrMod) :
    forLoop (flatStep J base) n 0 ({ unread := [], eof := e }, cells)
      = some ({ unread := [], eof := true }, writeBytes (junkBytes J base n) base cells) := by
  obtain ⟨m, rfl⟩ : ∃ m, n = m + 1 := ⟨n - 1, by omega⟩
  have hlt : base < cells.length := by omega
  have hslot : ptrAdd base 0 = base := ptrAdd_eq _ _ (by omega)
  simp only [forLoop, flatStep, fread_s_u8, hslot, hlt, if_true, Option.getD_none,
    junkBytes, writeBytes]
  have := flat_eof J base m 1 (cells.set base (some (J.pixel base).val)) (by simp; omega)
    (by simp; omega)
  simp only [Nat.zero_add] at this ⊢
  rw [this]

/-- A pixel loop that starts inside the heap block and whose last slot lies
outside it does an invalid store, whatever the stream holds. -/
theorem flat_fault (J : Indeterminate) (base : Nat) :
    ∀ (n a : Nat) (s : FILE × List Cell), 0 < n → base + a ≤ s.2.length →
      s.2.length < base + a + n → s.2.length < ptrMod →
      forLoop (flatStep J base) n a s = none := by
  intro n
  induction n with
  | zero => intro a s h _ _ _; omega
  | succ n ih =>
    intro a s _ hstart h hp
    simp only [forLoop, flatStep]
    by_cases hlt : base + a < s.2.length
    · have hslot : ptrAdd base a = base + a := ptrAdd_eq _ _ (by omega)
      simp only [hslot, hlt, if_true]
      have hn : 0 < n := by omega
      exact ih (a + 1) _ hn (by simp; omega) (by simp; omega) (by simp; omega)
    · have hslot : ptrAdd base a = base + a := ptrAdd_eq _ _ (by omega)
      simp [hslot, hlt]

theorem readImage_full (J : Indeterminate) (d : MNISTDataset) (ib n h w : Nat)
    (hw : d.m_width = w) (hh : d.m_height = h) (hS : d.m_imageSize = h * w)
    (hhw : h * w < sizeMod) (hwrap : n * (h * w) < sizeMod)
    (ps tail : List Byte) (e : Bool) (cells : List Cell) (hps : ps.length = h * w)
    (hin : ib + n * (h * w) + h * w ≤ cells.length) (hp : cells.length < ptrMod) :
    readImage J d ib n ({ unread := ps ++ tail, eof := e }, cells)
      = some ({ unread := tail, eof := e }, writeBytes ps (ib + n * (h * w)) cells) := by
  rw [readImage_flat J d ib n (by rw [hw, hh]; exact hhw), hS, hw, hh, mulSz_eq _ _ hwrap,
    ptrAdd_eq _ _ (by omega), ← hps]
  have := flat_full J (ib + n * ps.length) ps 0 tail e cells (by rw [hps] at *; omega) hp
  simpa using this

theorem readImage_eof (J : Indeterminate) (d : MNISTDataset) (ib n h w : Nat)
    (hw : d.m_width = w) (hh : d.m_height = h) (hS : d.m_imageSize = h * w)
    (hhw : h * w < sizeMod) (hwrap : n * (h * w) < sizeMod) (hpos : 0 < h * w)
    (e : Bool) (cells : List Cell) (hin : ib + n * (h * w) + h * w ≤ cells.length)
    (hp : cells.length < ptrMod) :
    readImage J d ib n ({ unread := [], eof := e }, cells)
      = some ({ unread := [], eof := true },
          writeBytes (junkBytes J (ib + n * (h * w)) (h * w)) (ib + n * (h * w)) cells) := by
  rw [readImage_flat J d ib n (by rw [hw, hh]; exact hhw), hS, hw, hh, mulSz_eq _ _ hwrap,
    ptrAdd_eq _ _ (by omega)]
  exact flat_eof_first J _ _ hpos e cells hin hp

theorem readImage_fault (J : Indeterminate) (d : MNISTDataset) (ib n h w : Nat)
    (hw : d.m_width = w) (hh : d.m_height = h) (hS : d.m_imageSize = h * w)
    (hhw : h * w < sizeMod) (hwrap : n * (h * w) < sizeMod) (hpos : 0 < h * w)
    (s : FILE × List Cell) (hstart : ib + n * (h * w) ≤ s.2.length)
    (hout : s.2.length < ib + n * (h * w) + h * w) (hp : s.2.length < ptrMod) :
    readImage J d ib n s = none := by
  rw [readImage_flat J d ib n (by rw [hw, hh]; exact hhw), hS, hw, hh, mulSz_eq _ _ hwrap,
    ptrAdd_eq _ _ (by omega)]
  exact flat_fault J _ _ 0 s hpos (by omega) (by omega) hp

/-! ## The decode loop -/

theorem writeRecords_length (S ib cb : Nat) : ∀ (ls ps : List Byte) (n : Nat)
    (cells : List Cell), (writeRecords S ib cb ls ps n cells).length = cells.length := by
  intro ls
  induction ls with
  | nil => intro ps n cells; rfl
  | cons b ls ih => intro ps n cells; simp [writeRecords, ih, writeBytes_length]

/-- While complete records and labels in `0..9` are available, the loop stores
them and goes on with the next record. -/
theorem decodeLoop_run (J : Indeterminate) (d : MNISTDataset) (ib cb h w : Nat)
    (hw : d.m_width = w) (hh : d.m_height = h) (hS : d.m_imageSize = h * w)
    (hhw : h * w < sizeMod) :
    ∀ (good rest ps tail : List Byte) (n : Nat) (cells : List Cell),
      (∀ b ∈ good, b.val ≤ 9) → ps.length = good.length * (h * w) →
      (n + good.length) * (h * w) < sizeMod →
      ib + (n + good.length) * (h * w) ≤ cells.length →
      cb + n + good.length ≤ cells.length → cells.length < ptrMod →
      decodeLoop J d ib cb (good ++ rest) { unread := ps ++ tail, eof := false } n cells
        = decodeLoop J d ib cb rest { unread := tail, eof := false } (n + good.length)
            (writeRecords (h * w) ib cb good ps n cells) := by
  intro good
  induction good with
  | nil =>
    intro rest ps tail n cells _ hps _ _ _ _
    have : ps = [] := List.eq_nil_of_length_eq_zero (by simpa using hps)
    subst this
    rfl
  | cons b good ih =>
    intro rest ps tail n cells hgood hps hwrap hin hcb hp
    simp only [List.length_cons] at hps hwrap hin hcb
    have e1 : (n + (good.length + 1)) * (h * w) = n * (h * w) + h * w + good.length * (h * w) := by
      ring
    have e2 : (good.length + 1) * (h * w) = h * w + good.length * (h * w) := by ring
    have e4 : (n + 1) * (h * w) = n * (h * w) + h * w := by ring
    have e5 : (n + 1 + good.length) * (h * w)
        = n * (h * w) + h * w + good.length * (h * w) := by ring
    have htake : (ps.take (h * w)).length = h * w := by simp; omega
    have hdrop : (ps.drop (h * w)).length = good.length * (h * w) := by simp; omega
    have hb : b.val ≤ 9 := hgood b (List.mem_cons_self b good)
    have hsplit : ps ++ tail = ps.take (h * w) ++ (ps.drop (h * w) ++ tail) := by
      rw [← List.append_assoc, List.take_append_drop]
    have hread := readImage_full J d ib n h w hw hh hS hhw (by omega) (ps.take (h * w))
      (ps.drop (h * w) ++ tail) false cells htake (by omega) hp
    have hlt : cb + n < cells.length := by omega
    have hslot : ptrAdd cb n = cb + n := ptrAdd_eq _ _ (by omega)
    conv_lhs => rw [decodeLoop]
    rw [hsplit]
    simp only [feof, hread, List.cons_append, hb, hslot, List.length_set, writeBytes_length]
    simp only [Nat.zero_le, and_self, not_true_eq_false, if_false, hlt, if_true]
    rw [ih rest (ps.drop (h * w)) tail (n + 1) _ (fun x hx => hgood x (List.mem_cons_of_mem b hx))
      hdrop (by omega) (by simp only [List.length_set, writeBytes_length]; omega)
      (by simp only [List.length_set, writeBytes_length]; omega)
      (by simp only [List.length_set, writeBytes_length]; omega)]
    have e3 : n + 1 + good.length = n + (good.length + 1) := by omega
    rw [e3]
    rfl

theorem writeRecords_frame (S ib cb : Nat) : ∀ (ls ps : List Byte) (n : Nat)
    (cells : List Cell) (t : Nat),
    (t < ib + n * S ∨ ib + (n + ls.length) * S ≤ t) →
    (t < cb + n ∨ cb + n + ls.length ≤ t) →
    (writeRecords S ib cb ls ps n cells)[t]? = cells[t]? := by
  intro ls
  induction ls with
  | nil => intro ps n cells t _ _; rfl
  | cons b ls ih =>
    intro ps n cells t h1 h2
    simp only [List.length_cons] at h1 h2
    have e4 : (n + 1) * S = n * S + S := by ring
    have e5 : (n + 1 + ls.length) * S = n * S + S + ls.length * S := by ring
    have e6 : (n + (ls.length + 1)) * S = n * S + S + ls.length * S := by ring
    have htl : (ps.take S).length ≤ S := by simp
    simp only [writeRecords]
    rw [ih (ps.drop S) (n + 1) _ t (by omega) (by omega),
      List.getElem?_set_ne (by omega), writeBytes_frame _ _ _ _ (by omega)]

theorem writeRecords_pixel (S ib cb : Nat) : ∀ (ls ps : List Byte) (n : Nat)
    (cells : List Cell) (m k : Nat) (b : Byte),
    ib + (n + ls.length) * S ≤ cb → cb + n + ls.length ≤ cells.length →
    m < ls.length → k < S → ps[m * S + k]? = some b →
    (writeRecords S ib cb ls ps n cells)[ib + (n + m) * S + k]? = some (some b.val) := by
  intro ls
  induction ls with
  | nil => intro ps n cells m k b _ _ hm; simp at hm
  | cons b0 ls ih =>
    intro ps n cells m k b h1 h2 hm hk h
    simp only [List.length_cons] at h1 h2 hm
    have e4 : (n + 1) * S = n * S + S := by ring
    have e5 : (n + 1 + ls.length) * S = n * S + S + ls.length * S := by ring
    have e6 : (n + (ls.length + 1)) * S = n * S + S + ls.length * S := by ring
    have htl : (ps.take S).length ≤ S := by simp
    simp only [writeRecords]
    cases m with
    | zero =>
      simp only [Nat.zero_mul, Nat.zero_add] at h
      have hin : (ps.take S)[k]? = some b := by
        rw [List.getElem?_take_of_lt hk]; exact h
      simp only [Nat.add_zero]
      rw [writeRecords_frame _ _ _ _ _ _ _ _ (by omega) (by omega),
        List.getElem?_set_ne (by omega)]
      exact writeBytes_inside _ _ _ _ _ (by omega) hin
    | succ m =>
      have e7 : (m + 1) * S + k = S + (m * S + k) := by ring
      have e8 : (n + (m + 1)) * S = (n + 1 + m) * S := by ring
      rw [e7] at h
      rw [e8]
      exact ih (ps.drop S) (n + 1) _ m k b (by omega)
        (by simp only [List.length_set, writeBytes_length]; omega) (by omega) hk
        (by rw [List.getElem?_drop]; exact h)

/-! ## The whole call -/

theorem Initialize_fits (self : MNISTDataset) (w h c : Nat) (hc : 0 < c) (hh : 0 < h)
    (hfit : AllocationFits c h w) :
    Initialize self w h c =
      { m_count := c, m_width := w, m_height := h, m_imageSize := h * w,
        m_imageBuffer := some 0, m_categoryBuffer := some (c * (h * w)),
        m_buffer := some (List.replicate (c * (h * w) + c * 10) none) } := by
  unfold AllocationFits c_categoryCount sizeofFloat at hfit
  have e1 : c * w * h = c * (h * w) := by ring
  have e2 : w * h = h * w := by ring
  have h1 : c * w ≤ c * w * h := Nat.le_mul_of_pos_right _ hh
  have h2 : h * w ≤ c * (h * w) := Nat.le_mul_of_pos_left _ hc
  have m1 : mulSz c w = c * w := mulSz_eq _ _ (by omega)
  have m2 : mulSz (c * w) h = c * (h * w) := by rw [mulSz_eq _ _ (by omega), e1]
  have m3 : mulSz c 10 = c * 10 := mulSz_eq _ _ (by omega)
  have m4 : addSz (c * (h * w)) (c * 10) = c * (h * w) + c * 10 := addSz_eq _ _ (by omega)
  have m5 : mulSz (c * (h * w) + c * 10) 4 = (c * (h * w) + c * 10) * 4 :=
    mulSz_eq _ _ (by omega)
  have m6 : mulSz w h = h * w := by rw [mulSz_eq _ _ (by omega), e2]
  have hpm := ptrMod_mul
  have m7 : ptrAdd 0 (c * (h * w)) = c * (h * w) := by
    rw [ptrAdd_eq _ _ (by omega), Nat.zero_add]
  simp only [Initialize, c_categoryCount, sizeofFloat, m1, m2, m3, m4, m5, m6, m7]
  rw [Nat.mul_div_cancel _ (by norm_num : 0 < 4)]

/-- With valid headers the call goes through `Initialize` into the decode
loop, positioned behind the two headers. -/
theorem Parse_valid (J : Indeterminate) (self : MNISTDataset) (img lbl : List Byte)
    (c h w : Nat) (hv : ValidHeaders img lbl c h w) (hfit : AllocationFits c h w) :
    Parse J self (some img) (some lbl) =
      ((decodeLoop J (Initialize self w h c) 0 (c * (h * w)) (lbl.drop 8)
          { unread := img.drop 16, eof := false } 0
          (List.replicate (c * (h * w) + c * 10) none)).1,
       { Initialize self w h c with
          m_buffer := some (decodeLoop J (Initialize self w h c) 0 (c * (h * w)) (lbl.drop 8)
            { unread := img.drop 16, eof := false } 0
            (List.replicate (c * (h * w) + c * 10) none)).2 }) := by
  obtain ⟨hi, hl, a1, a2, a3, a4, a5, a6, hc, hh, hw⟩ := hv
  have hc2 : 0 < be32 img 4 := by omega
  have hh2 : 0 < be32 img 8 := by omega
  have hw2 : 0 < be32 img 12 := by omega
  have a7 : be32 lbl 4 = be32 img 4 := by omega
  simp only [Parse, ParseHeaders_valid J img lbl hi hl, a1, a5, a7, hc2, hh2, hw2,
    ne_eq, not_true_eq_false, if_false, gt_iff_lt]
  rw [a2, a3, a4]
  simp only [Initialize_fits self w h c hc hh hfit, feof]
  rfl

/-- The iteration entered with both streams exhausted but neither indicator
raised. -/
theorem decodeLoop_last (J : Indeterminate) (d : MNISTDataset) (ib cb h w : Nat)
    (hw : d.m_width = w) (hh : d.m_height = h) (hS : d.m_imageSize = h * w)
    (hhw : h * w < sizeMod) (hpos : 0 < h * w) (n : Nat) (hwrap : n * (h * w) < sizeMod)
    (cells : List Cell) (hstart : ib + n * (h * w) ≤ cells.length)
    (hp : cells.length < ptrMod) (hcbp : cb + n < ptrMod) :
    decodeLoop J d ib cb [] { unread := [], eof := false } n cells =
      if cells.length < ib + n * (h * w) + h * w then (Outcome.invalidWrite, cells)
      else if ¬ (J.cat n).val ≤ 9 then
        (Outcome.assertionFailed Assertion.labelRange,
          writeBytes (junkBytes J (ib + n * (h * w)) (h * w)) (ib + n * (h * w)) cells)
      else if cb + n < cells.length then
        (Outcome.returned 0,
          (writeBytes (junkBytes J (ib + n * (h * w)) (h * w)) (ib + n * (h * w)) cells).set
            (cb + n) (some (J.cat n).val))
      else
        (Outcome.invalidWrite,
          writeBytes (junkBytes J (ib + n * (h * w)) (h * w)) (ib + n * (h * w)) cells) := by
  rw [decodeLoop]
  by_cases hout : cells.length < ib + n * (h * w) + h * w
  · rw [readImage_fault J d ib n h w hw hh hS hhw hwrap hpos _ hstart hout hp]
    simp [feof, hout]
  · rw [readImage_eof J d ib n h w hw hh hS hhw hwrap hpos false cells (by omega) hp]
    simp only [feof, hout, if_false, Nat.zero_le, true_and, writeBytes_length,
      ptrAdd_eq _ _ hcbp]
    rfl

theorem fits_bounds (c h w : Nat) (hc : 0 < c) (hfit : AllocationFits c h w) :
    c * (h * w) + c * 10 < sizeMod ∧ h * w ≤ c * (h * w) := by
  unfold AllocationFits c_categoryCount sizeofFloat at hfit
  have e1 : c * w * h = c * (h * w) := by ring
  have h2 : h * w ≤ c * (h * w) := Nat.le_mul_of_pos_left _ hc
  omega

/-- A block whose byte count is representable has fewer than `2^62` slots. -/
theorem fits_ptr (c h w : Nat) (hfit : AllocationFits c h w) :
    c * (h * w) + c * 10 < ptrMod := by
  unfold AllocationFits c_categoryCount sizeofFloat at hfit
  have e1 : c * w * h = c * (h * w) := by ring
  have hpm := ptrMod_mul
  omega

/-- On a well-formed pair the loop decodes the `c` records and then starts one
more iteration: after the last byte of either stream has been read neither
end-of-file indicator is raised. -/
theorem Parse_wellFormed (J : Indeterminate) (self : MNISTDataset) (img lbl : List Byte)
    (c h w : Nat) (hwf : WellFormedPair img lbl c h w) (hfit : AllocationFits c h w) :
    Parse J self (some img) (some lbl) =
      if c * 10 < h * w then
        (Outcome.invalidWrite,
          { Initialize self w h c with m_buffer := some (decodedCells img lbl c h w) })
      else if ¬ (J.cat c).val ≤ 9 then
        (Outcome.assertionFailed Assertion.labelRange,
          { Initialize self w h c with m_buffer := some (overrunCells J img lbl c h w) })
      else
        (Outcome.returned 0,
          { Initialize self w h c with
              m_buffer := some ((overrunCells J img lbl c h w).set (c * (h * w) + c)
                (some (J.cat c).val)) }) := by
  obtain ⟨hv, hil, hll, hgood⟩ := hwf
  have hv2 := hv
  obtain ⟨hi, hl, a1, a2, a3, a4, a5, a6, hc, hh, hw⟩ := hv2
  obtain ⟨hb1, hb2⟩ := fits_bounds c h w hc hfit
  have hb3 := fits_ptr c h w hfit
  have hpos : 0 < h * w := Nat.mul_pos hh hw
  have e1 : c * h * w = c * (h * w) := by ring
  have hd := Initialize_fits self w h c hc hh hfit
  have dw : (Initialize self w h c).m_width = w := by rw [hd]
  have dh : (Initialize self w h c).m_height = h := by rw [hd]
  have dS : (Initialize self w h c).m_imageSize = h * w := by rw [hd]
  have hlen : (lbl.drop 8).length = c := by simp; omega
  have hps : (img.drop 16).length = (lbl.drop 8).length * (h * w) := by
    rw [hlen]; simp; omega
  have run := decodeLoop_run J (Initialize self w h c) 0 (c * (h * w)) h w dw dh dS (by omega)
    (lbl.drop 8) [] (img.drop 16) [] 0 (List.replicate (c * (h * w) + c * 10) none) hgood hps
    (by rw [hlen, Nat.zero_add]; omega) (by rw [hlen]; simp) (by rw [hlen]; simp; omega)
    (by simp; omega)
  simp only [List.append_nil, Nat.zero_add, hlen] at run
  have run2 : decodeLoop J (Initialize self w h c) 0 (c * (h * w)) (lbl.drop 8)
      { unread := img.drop 16, eof := false } 0 (List.replicate (c * (h * w) + c * 10) none)
      = decodeLoop J (Initialize self w h c) 0 (c * (h * w)) [] { unread := [], eof := false } c
          (decodedCells img lbl c h w) := run
  have hlenR : (decodedCells img lbl c h w).length = c * (h * w) + c * 10 := by
    simp [decodedCells, writeRecords_length]
  have last := decodeLoop_last J (Initialize self w h c) 0 (c * (h * w)) h w dw dh dS
    (by omega) hpos c (by omega) (decodedCells img lbl c h w) (by rw [hlenR]; omega)
    (by rw [hlenR]; omega) (by omega)
  rw [Parse_valid J self img lbl c h w hv hfit, run2, last, hlenR]
  simp only [Nat.zero_add]
  by_cases hover : c * 10 < h * w
  · have : c * (h * w) + c * 10 < c * (h * w) + h * w := by omega
    simp only [hover, this, if_true]
  · have h1 : ¬ (c * (h * w) + c * 10 < c * (h * w) + h * w) := by omega
    have h2 : c * (h * w) + c < c * (h * w) + c * 10 := by omega
    simp only [hover, h1, h2, if_false, if_true]
    by_cases hcat : (J.cat c).val ≤ 9
    · simp only [hcat, not_true_eq_false, if_false]
      rfl
    · simp only [hcat, not_false_eq_true, if_true]
      rfl

theorem index_in_record (c S n k : Nat) (hn : n < c) (hk : k < S) : n * S + k < c * S := by
  have h1 : (n + 1) * S ≤ c * S := Nat.mul_le_mul_right S (by omega)
  rw [Nat.add_mul, Nat.one_mul] at h1
  omega

/-- The records decoded from a well-formed pair hold the pixels of the stream. -/
theorem decodedCells_pixel (img lbl : List Byte) (c h w : Nat)
    (hwf : WellFormedPair img lbl c h w) (n k : Nat) (hn : n < c) (hk : k < h * w) :
    ∃ b, img[16 + (n * (h * w) + k)]? = some b ∧
      (decodedCells img lbl c h w)[n * (h * w) + k]? = some (some b.val) := by
  obtain ⟨_, hil, hll, _⟩ := hwf
  have e1 : c * h * w = c * (h * w) := by ring
  have hidx := index_in_record c (h * w) n k hn hk
  have hlt : 16 + (n * (h * w) + k) < img.length := by omega
  refine ⟨img[16 + (n * (h * w) + k)], List.getElem?_eq_getElem hlt, ?_⟩
  have hlen : (lbl.drop 8).length = c := by simp; omega
  have := writeRecords_pixel (h * w) 0 (c * (h * w)) (lbl.drop 8) (img.drop 16) 0
    (List.replicate (c * (h * w) + c * 10) none) n k img[16 + (n * (h * w) + k)]
    (by rw [hlen]; simp) (by rw [hlen]; simp; omega) (by omega) hk
    (by rw [List.getElem?_drop]; exact List.getElem?_eq_getElem hlt)
  simpa [decodedCells] using this

theorem junkBytes_length (J : Indeterminate) : ∀ (n s : Nat), (junkBytes J s n).length = n := by
  intro n
  induction n with
  | zero => intro s; rfl
  | succ n ih => intro s; simp [junkBytes, ih]

theorem junkBytes_get (J : Indeterminate) : ∀ (n s k : Nat), k < n →
    (junkBytes J s n)[k]? = some (J.pixel (s + k)) := by
  intro n
  induction n with
  | zero => intro s k h; omega
  | succ n ih =>
    intro s k h
    cases k with
    | zero => simp [junkBytes]
    | succ k =>
      simp only [junkBytes, List.getElem?_cons_succ]
      rw [ih (s + 1) k (by omega)]
      have e : s + 1 + k = s + (k + 1) := by omega
      rw [e]

/-- The iteration entered with the image stream exhausted and one label left:
indeterminate pixels are stored, the label is stored, and the loop ends since
the pixel reads raised the end-of-file indicator. -/
theorem decodeLoop_short (J : Indeterminate) (d : MNISTDataset) (ib cb h w : Nat)
    (hw : d.m_width = w) (hh : d.m_height = h) (hS : d.m_imageSize = h * w)
    (hhw : h * w < sizeMod) (hpos : 0 < h * w) (n : Nat) (hwrap : n * (h * w) < sizeMod)
    (cells : List Cell) (bl : Byte) (hbl : bl.val ≤ 9)
    (hin : ib + n * (h * w) + h * w ≤ cells.length) (hcb : cb + n < cells.length)
    (hp : cells.length < ptrMod) :
    decodeLoop J d ib cb [bl] { unread := [], eof := false } n cells =
      (Outcome.returned 0,
        (writeBytes (junkBytes J (ib + n * (h * w)) (h * w)) (ib + n * (h * w)) cells).set
          (cb + n) (some bl.val)) := by
  rw [decodeLoop, readImage_eof J d ib n h w hw hh hS hhw hwrap hpos false cells hin hp]
  simp only [feof, Nat.zero_le, true_and, hbl, not_true_eq_false, if_false,
    writeBytes_length, ptrAdd_eq cb n (by omega), hcb, if_true]
  rw [decodeLoop]
  simp [feof]

/-- On a pair truncated by one record the call returns 0; the heap block holds
the complete records, then indeterminate pixels for the last record. -/
theorem Parse_truncated (J : Indeterminate) (self : MNISTDataset) (img lbl : List Byte)
    (m h w : Nat) (ht : TruncatedPair img lbl (m + 1) h w) (hfit : AllocationFits (m + 1) h w) :
    ∃ cells bl, (writeBytes (junkBytes J (m * (h * w)) (h * w)) (m * (h * w)) cells).length
        = (m + 1) * (h * w) + (m + 1) * 10 ∧
      Parse J self (some img) (some lbl) =
        (Outcome.returned 0,
          { Initialize self w h (m + 1) with
              m_buffer := some
                ((writeBytes (junkBytes J (m * (h * w)) (h * w)) (m * (h * w)) cells).set
                  ((m + 1) * (h * w) + m) (some bl)) }) := by
  obtain ⟨hv, hil, hll, hgood⟩ := ht
  have hv2 := hv
  obtain ⟨hi, hl, a1, a2, a3, a4, a5, a6, hc, hh, hw⟩ := hv2
  obtain ⟨hb1, hb2⟩ := fits_bounds (m + 1) h w hc hfit
  have hb3 := fits_ptr (m + 1) h w hfit
  have hpos : 0 < h * w := Nat.mul_pos hh hw
  have e0 : (m + 1) * (h * w) = m * (h * w) + h * w := by ring
  have e1 : (m + 1 - 1) * h * w = m * (h * w) := by rw [Nat.add_sub_cancel]; ring
  have hd := Initialize_fits self w h (m + 1) hc hh hfit
  have dw : (Initialize self w h (m + 1)).m_width = w := by rw [hd]
  have dh : (Initialize self w h (m + 1)).m_height = h := by rw [hd]
  have dS : (Initialize self w h (m + 1)).m_imageSize = h * w := by rw [hd]
  have hlen : (lbl.drop 8).length = m + 1 := by simp; omega
  have htake : ((lbl.drop 8).take m).length = m := by simp; omega
  have hrest : ((lbl.drop 8).drop m).length = 1 := by simp; omega
  obtain ⟨bl, hbl⟩ := List.length_eq_one.mp hrest
  have hsplit : lbl.drop 8 = (lbl.drop 8).take m ++ [bl] := by
    rw [← hbl, List.take_append_drop]
  have hblmem : bl ∈ lbl.drop 8 := by
    rw [hsplit]; simp
  have hps : (img.drop 16).length = ((lbl.drop 8).take m).length * (h * w) := by
    rw [htake]; simp; omega
  have run := decodeLoop_run J (Initialize self w h (m + 1)) 0 ((m + 1) * (h * w)) h w dw dh dS
    (by omega) ((lbl.drop 8).take m) [bl] (img.drop 16) [] 0
    (List.replicate ((m + 1) * (h * w) + (m + 1) * 10) none)
    (fun b hb => hgood b (List.mem_of_mem_take hb)) hps
    (by rw [htake, Nat.zero_add]; omega) (by rw [htake]; simp; omega)
    (by rw [htake]; simp; omega) (by simp; omega)
  rw [← hsplit] at run
  simp only [List.append_nil, Nat.zero_add, htake] at run
  have hlenR : (writeRecords (h * w) 0 ((m + 1) * (h * w)) ((lbl.drop 8).take m)
      (img.drop 16) 0 (List.replicate ((m + 1) * (h * w) + (m + 1) * 10) none)).length
      = (m + 1) * (h * w) + (m + 1) * 10 := by
    simp [writeRecords_length]
  have short := decodeLoop_short J (Initialize self w h (m + 1)) 0 ((m + 1) * (h * w)) h w
    dw dh dS (by omega) hpos m (by omega) _ bl (hgood bl hblmem)
    (by rw [hlenR]; omega) (by rw [hlenR]; omega) (by rw [hlenR]; omega)
  simp only [Nat.zero_add] at short
  refine ⟨writeRecords (h * w) 0 ((m + 1) * (h * w)) ((lbl.drop 8).take m)
      (img.drop 16) 0 (List.replicate ((m + 1) * (h * w) + (m + 1) * 10) none), bl.val, ?_, ?_⟩
  · rw [writeBytes_length]; exact hlenR
  · rw [Parse_valid J self img lbl (m + 1) h w hv hfit, run, short]

/-- When the label of some record is above 9 and the image stream holds the
records up to that one, the loop ends at the failed range assertion. -/
theorem decodeLoop_bad (J : Indeterminate) (d : MNISTDataset) (ib cb h w : Nat)
    (hw : d.m_width = w) (hh : d.m_height = h) (hS : d.m_imageSize = h * w)
    (hhw : h * w < sizeMod) :
    ∀ (ls ps : List Byte) (n : Nat) (cells : List Cell) (m : Nat) (b : Byte),
      ls[m]? = some b → 9 < b.val → (m + 1) * (h * w) ≤ ps.length →
      (n + m + 1) * (h * w) < sizeMod → ib + (n + m + 1) * (h * w) ≤ cells.length →
      cb + n + m < cells.length → cells.length < ptrMod →
      (decodeLoop J d ib cb ls { unread := ps, eof := false } n cells).1
        = Outcome.assertionFailed Assertion.labelRange := by
  intro ls
  induction ls with
  | nil => intro ps n cells m b h; simp at h
  | cons b0 ls ih =>
    intro ps n cells m b hb hbad hps hwrap hin hcb hp
    have e1 : (n + m + 1) * (h * w) = n * (h * w) + h * w + m * (h * w) := by ring
    have e2 : (m + 1) * (h * w) = h * w + m * (h * w) := by ring
    have htake : (ps.take (h * w)).length = h * w := by simp; omega
    have hsplit : ps = ps.take (h * w) ++ ps.drop (h * w) := (List.take_append_drop _ _).symm
    have hread := readImage_full J d ib n h w hw hh hS hhw (by omega) (ps.take (h * w))
      (ps.drop (h * w)) false cells htake (by omega) hp
    rw [← hsplit] at hread
    rw [decodeLoop]
    simp only [feof, hread, Nat.zero_le, true_and, writeBytes_length]
    by_cases hb0 : b0.val ≤ 9
    · have hlt : cb + n < cells.length := by omega
      simp only [hb0, not_true_eq_false, if_false, ptrAdd_eq cb n (by omega), hlt, if_true]
      cases m with
      | zero =>
        simp only [List.getElem?_cons_zero, Option.some.injEq] at hb
        subst hb
        omega
      | succ m =>
        simp only [List.getElem?_cons_succ] at hb
        have e3 : (n + 1 + m + 1) * (h * w) = n * (h * w) + h * w + (m + 1) * (h * w) := by
          ring
        have e4 : (n + (m + 1) + 1) * (h * w) = n * (h * w) + h * w + (m + 1) * (h * w) := by
          ring
        have e5 : (m + 1 + 1) * (h * w) = h * w + (m + 1) * (h * w) := by ring
        exact ih (ps.drop (h * w)) (n + 1) _ m b hb hbad (by simp; omega) (by omega)
          (by simp only [List.length_set, writeBytes_length]; omega)
          (by simp only [List.length_set, writeBytes_length]; omega)
          (by simp only [List.length_set, writeBytes_length]; omega)
    · simp [hb0]

/-- A call that returns 0 went through `Initialize` with the values decoded
from the image header. -/
theorem Parse_returned_fields (J : Indeterminate) (self : MNISTDataset) (img lbl : List Byte)
    (d : MNISTDataset) (hi : 16 ≤ img.length)
    (hret : Parse J self (some img) (some lbl) = (Outcome.returned 0, d)) :
    be32 img 0 = 0x00000803 ∧ d.m_count = be32 img 4 ∧ d.m_height = be32 img 8 ∧
      d.m_width = be32 img 12 := by
  cases hP : ParseHeaders J img lbl with
  | error a =>
    simp only [Parse, hP] at hret
    injection hret with h1 _
    cases h1
  | ok r =>
    obtain ⟨count, rows, cols, fimg, flabel⟩ := r
    obtain ⟨f0, f1, f2, f3⟩ := ParseHeaders_ok_fields J img lbl hi count rows cols fimg flabel hP
    simp only [Parse, hP, Initialize] at hret
    split_ifs at hret <;>
    · injection hret with _ h2
      subst h2
      exact ⟨f0, f1, f2, f3⟩

/-- The only code the decode loop hands back is 0. -/
theorem decodeLoop_code (J : Indeterminate) (d : MNISTDataset) (ib cb : Nat) :
    ∀ (ls : List Byte) (fimg : FILE) (n : Nat) (cells : List Cell) (code : Int),
      (decodeLoop J d ib cb ls fimg n cells).1 = Outcome.returned code → code = 0 := by
  intro ls
  induction ls with
  | nil =>
    intro fimg n cells code h
    rw [decodeLoop] at h
    split_ifs at h with he
    · cases h; rfl
    · cases hr : readImage J d ib n (fimg, cells) with
      | none => rw [hr] at h; cases h
      | some r =>
        obtain ⟨f1, c1⟩ := r
        rw [hr] at h
        dsimp only at h
        split_ifs at h
        all_goals first | (cases h; done) | (cases h; rfl)
  | cons b ls ih =>
    intro fimg n cells code h
    rw [decodeLoop] at h
    split_ifs at h with he
    · cases h; rfl
    · cases hr : readImage J d ib n (fimg, cells) with
      | none => rw [hr] at h; cases h
      | some r =>
        obtain ⟨f1, c1⟩ := r
        rw [hr] at h
        dsimp only at h
        split_ifs at h
        exact ih _ _ _ _ h

/-- Once both files are open, the only code `Parse` returns is 0. -/
theorem Parse_code (J : Indeterminate) (self : MNISTDataset) (img lbl : List Byte)
    (code : Int) (d : MNISTDataset)
    (h : Parse J self (some img) (some lbl) = (Outcome.returned code, d)) : code = 0 := by
  cases hP : ParseHeaders J img lbl with
  | error a =>
    simp only [Parse, hP] at h
    injection h with h1 _
    cases h1
  | ok r =>
    obtain ⟨count, rows, cols, fimg, flabel⟩ := r
    simp only [Parse, hP, Initialize] at h
    split_ifs at h
    · injection h with h1 _
      injection h1 with h1
      exact h1.symm
    · injection h with h1 _
      exact decodeLoop_code J _ _ _ _ _ _ _ code h1

/-- A label byte above 9 among the declared records ends the call at the
range assertion. -/
theorem Parse_bad_label (J : Indeterminate) (self : MNISTDataset) (img lbl : List Byte)
    (c h w : Nat) (hv : ValidHeaders img lbl c h w) (hfit : AllocationFits c h w)
    (himg : 16 + c * h * w ≤ img.length) (n : Nat) (hn : n < c) (b : Byte)
    (hb : lbl[8 + n]? = some b) (hbad : 9 < b.val) :
    (Parse J self (some img) (some lbl)).1 = Outcome.assertionFailed Assertion.labelRange := by
  have hv2 := hv
  obtain ⟨hi, hl, a1, a2, a3, a4, a5, a6, hc, hh, hw⟩ := hv2
  obtain ⟨hb1, hb2⟩ := fits_bounds c h w hc hfit
  have hb3 := fits_ptr c h w hfit
  have e1 : c * h * w = c * (h * w) := by ring
  have hd := Initialize_fits self w h c hc hh hfit
  have dw : (Initialize self w h c).m_width = w := by rw [hd]
  have dh : (Initialize self w h c).m_height = h := by rw [hd]
  have dS : (Initialize self w h c).m_imageSize = h * w := by rw [hd]
  have hrec : (n + 1) * (h * w) ≤ c * (h * w) := Nat.mul_le_mul_right _ (by omega)
  have e2 : (0 + n + 1) * (h * w) = (n + 1) * (h * w) := by ring
  rw [Parse_valid J self img lbl c h w hv hfit]
  exact decodeLoop_bad J (Initialize self w h c) 0 (c * (h * w)) h w dw dh dS (by omega)
    (lbl.drop 8) (img.drop 16) 0 _ n b (by rw [List.getElem?_drop]; exact hb) hbad
    (by simp; omega) (by omega) (by simp; omega) (by simp; omega) (by simp; omega)

/-! ## The allocation -/

theorem mulSz_mulSz (a b c : Nat) : mulSz (mulSz a b) c = (a * b * c) % sizeMod := by
  simp only [mulSz, Nat.mod_mul_mod]

theorem bufferSize_mod (c w h : Nat) :
    bufferSize c w h = (c * w * h + c * 10) % sizeMod := by
  rw [bufferSize, mulSz_mulSz]
  show ((c * w * h) % sizeMod + (c * 10) % sizeMod) % sizeMod = _
  rw [← Nat.add_mod]

/-- The byte count passed to `malloc` is the exact value reduced modulo `2^64`. -/
theorem allocationBytes_mod (c w h : Nat) :
    allocationBytes c w h = ((c * w * h + c * 10) * 4) % sizeMod := by
  rw [allocationBytes, bufferSize_mod]
  show ((c * w * h + c * 10) % sizeMod * 4) % sizeMod = _
  rw [Nat.mod_mul_mod]

theorem allocatedSlots_Initialize (self : MNISTDataset) (w h c : Nat) :
    allocatedSlots (Initialize self w h c) = some (allocationBytes c w h / sizeofFloat) := by
  simp only [allocatedSlots, Initialize, allocationBytes, bufferSize, Option.map_some',
    List.length_replicate]

theorem byteswap_lt (v : Nat) : _byteswap_ulong v < 2 ^ 32 := by
  have h0 := Nat.mod_lt v (by norm_num : 0 < 256)
  have h1 := Nat.mod_lt (v / 2 ^ 8) (by norm_num : 0 < 256)
  have h2 := Nat.mod_lt (v / 2 ^ 16) (by norm_num : 0 < 256)
  have h3 := Nat.mod_lt (v / 2 ^ 24) (by norm_num : 0 < 256)
  simp only [_byteswap_ulong]
  norm_num at *
  omega

/-- Rows and columns handed to `Initialize` are 32-bit values. -/
theorem ParseImageHeader_ok_lt (J : Indeterminate) (img : List Byte) (count rows cols : Nat)
    (fimg : FILE) (hok : ParseImageHeader J img = Except.ok (count, rows, cols, fimg)) :
    rows < 2 ^ 32 ∧ cols < 2 ^ 32 := by
  simp only [ParseImageHeader] at hok
  split_ifs at hok
  simp only [Except.ok.injEq, Prod.mk.injEq] at hok
  obtain ⟨_, hr, hc, _⟩ := hok
  rw [← hr, ← hc]
  exact ⟨byteswap_lt _, byteswap_lt _⟩

theorem ParseHeaders_ok_lt (J : Indeterminate) (img lbl : List Byte) (count rows cols : Nat)
    (fimg flabel : FILE)
    (hok : ParseHeaders J img lbl = Except.ok (count, rows, cols, fimg, flabel)) :
    rows < 2 ^ 32 ∧ cols < 2 ^ 32 := by
  unfold ParseHeaders at hok
  cases hI : ParseImageHeader J img with
  | error a => rw [hI] at hok; cases hok
  | ok r =>
    obtain ⟨c1, r1, cl1, f1⟩ := r
    rw [hI] at hok
    dsimp only at hok
    cases hL : ParseLabelHeader J lbl c1 with
    | error a => rw [hL] at hok; cases hok
    | ok f2 =>
      rw [hL] at hok
      simp only [Except.ok.injEq, Prod.mk.injEq] at hok
      obtain ⟨_, hr, hc, _⟩ := hok
      rw [← hr, ← hc]
      exact ParseImageHeader_ok_lt J img c1 r1 cl1 f1 hI

/-- The object built by `Initialize` from 32-bit rows and columns satisfies the
invariant, whatever heap block it carries. -/
theorem ShapeInvariant_Initialize (self : MNISTDataset) (cols rows count : Nat)
    (hr : rows < 2 ^ 32) (hc : cols < 2 ^ 32) (cells : List Cell) :
    ShapeInvariant { Initialize self cols rows count with m_buffer := some cells } := by
  have hlt : cols * rows < sizeMod := by
    have h1 : cols * rows < 2 ^ 32 * 2 ^ 32 := Nat.mul_lt_mul'' hc hr
    have h2 : (2 : Nat) ^ 32 * 2 ^ 32 = sizeMod := by unfold sizeMod; norm_num
    omega
  have hS : mulSz cols rows = cols * rows := mulSz_eq _ _ hlt
  refine ⟨?_, fun _ => ⟨0, ptrAdd 0 (mulSz (mulSz count cols) rows), rfl, rfl, ?_⟩⟩
  · simp only [GetImageSize, GetImageWidth, GetImageHeight, Initialize, hS]
  · simp only [GetImageCount, GetImageSize, Initialize, hS, mulSz_mulSz]
    simp only [mulSz, Nat.mul_assoc]

/-- Every call of `Parse` preserves the invariant, however it ends. -/
theorem ShapeInvariant_Parse (J : Indeterminate) (self : MNISTDataset)
    (imageFile labelFile : Option (List Byte)) (hself : ShapeInvariant self) :
    ShapeInvariant (Parse J self imageFile labelFile).2 := by
  cases imageFile with
  | none => exact hself
  | some img =>
    cases labelFile with
    | none => exact hself
    | some lbl =>
      cases hP : ParseHeaders J img lbl with
      | error a => simp only [Parse, hP]; exact hself
      | ok r =>
        obtain ⟨count, rows, cols, fimg, flabel⟩ := r
        obtain ⟨hr, hc⟩ := ParseHeaders_ok_lt J img lbl count rows cols fimg flabel hP
        have key := ShapeInvariant_Initialize self cols rows count hr hc
        simp only [Parse, hP]
        have hb : (Initialize self cols rows count).m_buffer
            = some (List.replicate
                (mulSz (addSz (mulSz (mulSz count cols) rows) (mulSz count c_categoryCount))
                  sizeofFloat / sizeofFloat) none) := rfl
        have hi : (Initialize self cols rows count).m_imageBuffer = some 0 := rfl
        have hcat : (Initialize self cols rows count).m_categoryBuffer
            = some (ptrAdd 0 (mulSz (mulSz count cols) rows)) := rfl
        rw [hb, hi, hcat]
        dsimp only
        split_ifs
        · have := key (List.replicate
              (mulSz (addSz (mulSz (mulSz count cols) rows) (mulSz count c_categoryCount))
                sizeofFloat / sizeofFloat) none)
          exact this
        · exact key _

/-- After a call that returns 0 the image view is the start of the block and
the label view lies `(count * size) mod 2^62` slots behind it. -/
theorem Parse_returned_views (J : Indeterminate) (self : MNISTDataset) (img lbl : List Byte)
    (d : MNISTDataset)
    (hret : Parse J self (some img) (some lbl) = (Outcome.returned 0, d)) :
    d.m_buffer ≠ none ∧ d.m_imageBuffer = some 0 ∧
      d.m_categoryBuffer = some ((d.m_count * d.m_imageSize) % ptrMod) := by
  cases hP : ParseHeaders J img lbl with
  | error a =>
    simp only [Parse, hP] at hret
    injection hret with h1 _
    cases h1
  | ok r =>
    obtain ⟨count, rows, cols, fimg, flabel⟩ := r
    obtain ⟨hr, hc⟩ := ParseHeaders_ok_lt J img lbl count rows cols fimg flabel hP
    have hlt : cols * rows < sizeMod := by
      have h1 : cols * rows < 2 ^ 32 * 2 ^ 32 := Nat.mul_lt_mul'' hc hr
      have h2 : (2 : Nat) ^ 32 * 2 ^ 32 = sizeMod := by unfold sizeMod; norm_num
      omega
    have hS : mulSz cols rows = cols * rows := mulSz_eq _ _ hlt
    have hdvd : ptrMod ∣ sizeMod := ⟨4, ptrMod_mul.symm⟩
    have hcat : ptrAdd 0 (mulSz (mulSz count cols) rows)
        = (count * (cols * rows)) % ptrMod := by
      rw [mulSz_mulSz, ptrAdd, Nat.zero_add, Nat.mod_mod_of_dvd _ hdvd, Nat.mul_assoc]
    simp only [Parse, hP, Initialize, hS, hcat] at hret
    split_ifs at hret <;>
    · injection hret with _ h2
      subst h2
      exact ⟨by simp, rfl, rfl⟩

/-! ## The claims -/

/-- C1 (header round-trip), evaluated where the code departs from it: on the
well-formed pair holding one 4 x 4 image, whatever the indeterminate values,
the call does not return; the iteration after the last record stores 16 pixels
behind the image although only 10 slots are left in the heap block. -/
theorem header_roundtrip_overrun :
    WellFormedPair img144 lbl1 1 4 4 ∧
    ∀ J : Indeterminate,
      (Parse J MNISTDataset.new (some img144) (some lbl1)).1 = Outcome.invalidWrite := by
  refine ⟨by decide, fun J => ?_⟩
  rw [Parse_wellFormed J _ img144 lbl1 1 4 4 (by decide) (by decide)]
  rfl

/-- C2 (label fidelity), evaluated where the code departs from it: on the
well-formed pair of two 2 x 2 images labelled 3 and 7 the label slots 0 and 1
end up holding the values of two failed pixel reads, not the label bytes; when
those are the stale pixel 200 the call returns 0 with 200 in both slots. -/
theorem label_fidelity_overwritten :
    WellFormedPair img222 lbl2 2 2 2 ∧ lbl2[8]? = some 3 ∧ lbl2[9]? = some 7 ∧
    (∀ J : Indeterminate,
      categoryAt (Parse J MNISTDataset.new (some img222) (some lbl2)).2 0
          = some (J.pixel 8).val ∧
      categoryAt (Parse J MNISTDataset.new (some img222) (some lbl2)).2 1
          = some (J.pixel 9).val) ∧
    (Parse stale MNISTDataset.new (some img222) (some lbl2)).1 = Outcome.returned 0 ∧
    categoryAt (Parse stale MNISTDataset.new (some img222) (some lbl2)).2 0 = some 200 ∧
    categoryAt (Parse stale MNISTDataset.new (some img222) (some lbl2)).2 1 = some 200 := by
  refine ⟨by decide, by decide, by decide, fun J => ?_, by decide, by decide, by decide⟩
  rw [Parse_wellFormed J _ img222 lbl2 2 2 2 (by decide) (by decide),
    if_neg (by decide : ¬ (2 * 10 < 2 * 2))]
  split_ifs <;> exact ⟨rfl, rfl⟩

/-- C3 (pixel fidelity): for a well-formed pair with count `c`, rows `h` and
columns `w`, whatever way the call ends (in particular after it returns), for
every `n < c`, `j < h`, `i < w` the number at
`GetImageData()[n*w*h + j*w + i]` is the pixel byte at offset
`16 + n*w*h + j*w + i` of the image stream. -/
theorem pixel_fidelity (J : Indeterminate) (self : MNISTDataset) (img lbl : List Byte)
    (c h w : Nat) (hwf : WellFormedPair img lbl c h w) (hfit : AllocationFits c h w)
    (n j i : Nat) (hn : n < c) (hj : j < h) (hi : i < w) :
    ∃ b, img[16 + n * w * h + j * w + i]? = some b ∧
      imageAt (Parse J self (some img) (some lbl)).2 (n * w * h + j * w + i) = some b.val := by
  have hk := index_lt h w j i hj hi
  obtain ⟨b, hb, hcell⟩ := decodedCells_pixel img lbl c h w hwf n (j * w + i) hn hk
  have hidx := index_in_record c (h * w) n (j * w + i) hn hk
  have e1 : n * w * h = n * (h * w) := by ring
  have e2 : 16 + n * (h * w) + j * w + i = 16 + (n * (h * w) + (j * w + i)) := by omega
  have e3 : n * (h * w) + j * w + i = n * (h * w) + (j * w + i) := by omega
  have hc : 0 < c := by omega
  have hh : 0 < h := by omega
  refine ⟨b, by rw [e1, e2]; exact hb, ?_⟩
  rw [e1, e3, Parse_wellFormed J self img lbl c h w hwf hfit]
  have hover : (overrunCells J img lbl c h w)[n * (h * w) + (j * w + i)]? = some (some b.val) := by
    unfold overrunCells
    rw [writeBytes_frame _ _ _ _ (Or.inl hidx)]
    exact hcell
  have hne : c * (h * w) + c ≠ n * (h * w) + (j * w + i) := by omega
  have hset : ((overrunCells J img lbl c h w).set (c * (h * w) + c)
      (some (J.cat c).val))[n * (h * w) + (j * w + i)]? = some (some b.val) := by
    rw [List.getElem?_set_ne hne]; exact hover
  split_ifs <;>
    simp only [imageAt, deref, GetImageData, Initialize_fits self w h c hc hh hfit,
      List.getD_eq_getElem?_getD, Nat.zero_add, hcell, hover, hset, Option.getD_some]

/-- C3 at a concrete input: two 2 x 2 images; pixel (row 1, column 0) of image 1
is the byte 22 at offset 22 of the image stream. -/
theorem pixel_fidelity_witness :
    WellFormedPair img222 lbl2 2 2 2 ∧ AllocationFits 2 2 2 ∧
    (Parse stale MNISTDataset.new (some img222) (some lbl2)).1 = Outcome.returned 0 ∧
    img222[22]? = some 22 ∧
    ∃ b, img222[16 + 1 * 2 * 2 + 1 * 2 + 0]? = some b ∧
      imageAt (Parse stale MNISTDataset.new (some img222) (some lbl2)).2
        (1 * 2 * 2 + 1 * 2 + 0) = some b.val :=
  ⟨by decide, by decide, by decide, by decide,
    pixel_fidelity stale MNISTDataset.new img222 lbl2 2 2 2 (by decide) (by decide) 1 1 0
      (by decide) (by decide) (by decide)⟩

/-- C4 (truncation) fails on the code: the image stream declares two 2 x 2
images and ends after the first; the call returns 0. -/
theorem truncation_returns_success :
    TruncatedPair img222short lbl2 2 2 2 ∧
    (Parse stale MNISTDataset.new (some img222short) (some lbl2)).1 = Outcome.returned 0 := by
  decide

/-- C4 as amended: when the image stream has a valid header declaring `c`
records and ends after exactly `c - 1` complete records (label stream
well-formed), the truncation is not reported: the call returns 0 with
`GetImageCount() = c`, and each pixel slot of the last record holds the
value left by a failed read, not a byte of the stream. -/
theorem truncation_undetected (J : Indeterminate) (self : MNISTDataset) (img lbl : List Byte)
    (c h w : Nat) (ht : TruncatedPair img lbl c h w) (hfit : AllocationFits c h w) :
    (Parse J self (some img) (some lbl)).1 = Outcome.returned 0 ∧
    GetImageCount (Parse J self (some img) (some lbl)).2 = c ∧
    ∀ k, k < h * w →
      imageAt (Parse J self (some img) (some lbl)).2 ((c - 1) * (h * w) + k)
        = some (J.pixel ((c - 1) * (h * w) + k)).val := by
  have hc : 0 < c := ht.1.2.2.2.2.2.2.2.2.1
  have hh : 0 < h := ht.1.2.2.2.2.2.2.2.2.2.1
  obtain ⟨m, rfl⟩ : ∃ m, c = m + 1 := ⟨c - 1, by omega⟩
  obtain ⟨cells, bl, hlen, hP⟩ := Parse_truncated J self img lbl m h w ht hfit
  rw [hP]
  refine ⟨rfl, ?_, ?_⟩
  · simp [GetImageCount, Initialize_fits self w h (m + 1) hc hh hfit]
  · intro k hk
    have e0 : (m + 1) * (h * w) = m * (h * w) + h * w := by ring
    have hne : (m + 1) * (h * w) + m ≠ m * (h * w) + k := by omega
    have hjl := junkBytes_length J (h * w) (m * (h * w))
    have hcell : ((writeBytes (junkBytes J (m * (h * w)) (h * w)) (m * (h * w)) cells).set
        ((m + 1) * (h * w) + m) (some bl))[m * (h * w) + k]?
          = some (some (J.pixel (m * (h * w) + k)).val) := by
      rw [List.getElem?_set_ne hne]
      rw [writeBytes_length] at hlen
      exact writeBytes_inside _ _ _ _ _ (by rw [hjl]; omega) (junkBytes_get J _ _ _ hk)
    simp only [imageAt, deref, GetImageData, Initialize_fits self w h (m + 1) hc hh hfit,
      List.getD_eq_getElem?_getD, Nat.zero_add, Nat.add_sub_cancel, hcell, Option.getD_some]

/-- C4 as amended, at a concrete input: two 2 x 2 images declared, one present. -/
theorem truncation_undetected_witness :
    TruncatedPair img222short lbl2 2 2 2 ∧ AllocationFits 2 2 2 ∧
    (Parse stale MNISTDataset.new (some img222short) (some lbl2)).1 = Outcome.returned 0 ∧
    GetImageCount (Parse stale MNISTDataset.new (some img222short) (some lbl2)).2 = 2 ∧
    ∀ k, k < 2 * 2 →
      imageAt (Parse stale MNISTDataset.new (some img222short) (some lbl2)).2
        ((2 - 1) * (2 * 2) + k) = some (stale.pixel ((2 - 1) * (2 * 2) + k)).val :=
  ⟨by decide, by decide,
    truncation_undetected stale MNISTDataset.new img222short lbl2 2 2 2 (by decide) (by decide)⟩

/-- C5 (magic rejection) fails on the code as stated: the label magic is
wrong (`0x800`), yet the assertion that fails is the one on the image count,
which the code checks first. -/
theorem magic_rejection_other_assertion :
    be32 lblBadMagic 0 = 0x00000800 ∧ be32 imgCount0 0 = 0x00000803 ∧
    Parse stale MNISTDataset.new (some imgCount0) (some lblBadMagic)
      = (Outcome.assertionFailed Assertion.imageCount, MNISTDataset.new) := by
  decide

/-- C5 as amended: when the value at offset 0 of the image stream differs from
`0x00000803` or the value at offset 0 of the label stream differs from
`0x00000801`, the call stops at a failed assertion before `Initialize`: it
returns no code and the object is unchanged (no buffer allocated).  The
failed assertion is the image-magic one when the image magic is wrong, and
the label-magic one when the image header is valid. -/
theorem magic_rejection (J : Indeterminate) (self : MNISTDataset) (img lbl : List Byte)
    (hbad : (4 ≤ img.length ∧ be32 img 0 ≠ 0x00000803) ∨
      (4 ≤ lbl.length ∧ be32 lbl 0 ≠ 0x00000801)) :
    ∃ a, Parse J self (some img) (some lbl) = (Outcome.assertionFailed a, self) ∧
      (4 ≤ img.length → be32 img 0 ≠ 0x00000803 → a = Assertion.imageMagic) ∧
      (16 ≤ img.length → be32 img 0 = 0x00000803 → 0 < be32 img 4 → 0 < be32 img 8 →
        0 < be32 img 12 → a = Assertion.labelMagic) := by
  by_cases hi : 4 ≤ img.length ∧ be32 img 0 ≠ 0x00000803
  · refine ⟨Assertion.imageMagic, ?_, fun _ _ => rfl, fun _ h => absurd h hi.2⟩
    simp only [Parse, ParseHeaders_imageMagic J img lbl hi.1 hi.2]
  · have hl : 4 ≤ lbl.length ∧ be32 lbl 0 ≠ 0x00000801 := hbad.resolve_left hi
    obtain ⟨a, ha⟩ := ParseHeaders_labelMagic_any J img lbl hl.1 hl.2
    refine ⟨a, ?_, fun h1 h2 => absurd ⟨h1, h2⟩ hi, fun h16 hm hc hh hw => ?_⟩
    · simp only [Parse, ha]
    · rw [ParseHeaders_labelMagic J img lbl h16 hl.1 hm hc hh hw hl.2] at ha
      injection ha with ha
      exact ha.symm

/-- C5 as amended, at concrete inputs: a one-bit flip of the label magic in an
otherwise valid pair. -/
theorem magic_rejection_witness :
    be32 lblBadMagic 0 = 0x00000800 ∧
    ∃ a, Parse stale MNISTDataset.new (some img111) (some lblBadMagic)
        = (Outcome.assertionFailed a, MNISTDataset.new) ∧
      (4 ≤ img111.length → be32 img111 0 ≠ 0x00000803 → a = Assertion.imageMagic) ∧
      (16 ≤ img111.length → be32 img111 0 = 0x00000803 → 0 < be32 img111 4 →
        0 < be32 img111 8 → 0 < be32 img111 12 → a = Assertion.labelMagic) :=
  ⟨by decide, magic_rejection stale MNISTDataset.new img111 lblBadMagic
    (Or.inr ⟨by decide, by decide⟩)⟩

/-- C6 (count mismatch rejection): when both headers are otherwise valid and
the record count of the label stream differs from that of the image stream,
the call stops at the failed count-agreement assertion, before `Initialize`:
no code is returned and the object is unchanged. -/
theorem count_mismatch_rejection (J : Indeterminate) (self : MNISTDataset)
    (img lbl : List Byte) (hi : 16 ≤ img.length) (hl : 8 ≤ lbl.length)
    (hm : be32 img 0 = 0x00000803) (hc : 0 < be32 img 4) (hh : 0 < be32 img 8)
    (hw : 0 < be32 img 12) (hlm : be32 lbl 0 = 0x00000801)
    (hne : be32 lbl 4 ≠ be32 img 4) :
    Parse J self (some img) (some lbl)
      = (Outcome.assertionFailed Assertion.labelCount, self) := by
  simp only [Parse, ParseHeaders_valid J img lbl hi hl, hm, hlm, hc, hh, hw, hne, ne_eq,
    not_true_eq_false, not_false_eq_true, if_true, if_false, gt_iff_lt]

/-- C6 at the input of the specification: image count 5, label count 4. -/
theorem count_mismatch_rejection_witness :
    be32 img511 4 = 5 ∧ be32 lbl4 4 = 4 ∧
    Parse stale MNISTDataset.new (some img511) (some lbl4)
      = (Outcome.assertionFailed Assertion.labelCount, MNISTDataset.new) :=
  ⟨by decide, by decide,
    count_mismatch_rejection stale MNISTDataset.new img511 lbl4 (by decide) (by decide)
      (by decide) (by decide) (by decide) (by decide) (by decide) (by decide)⟩

/-- C7 (zero-dimension rejection): when the image header has the right magic
and declares count 0, rows 0 or columns 0, the call stops at the failed
assertion on the first zero field, before the label stream is read and before
`Initialize`: the object is unchanged, so a freshly constructed one keeps
count, width, height zero and null buffers. -/
theorem zero_dimension_rejection (J : Indeterminate) (self : MNISTDataset)
    (img lbl : List Byte) (hi : 16 ≤ img.length) (hm : be32 img 0 = 0x00000803)
    (hz : be32 img 4 = 0 ∨ be32 img 8 = 0 ∨ be32 img 12 = 0) :
    Parse J self (some img) (some lbl)
      = (Outcome.assertionFailed
          (if be32 img 4 = 0 then Assertion.imageCount
           else if be32 img 8 = 0 then Assertion.imageRows else Assertion.imageCols),
         self) := by
  simp only [Parse, ParseHeaders_zero J img lbl hi hm hz]

/-- C7 at a concrete input: rows 0 in the header, on a fresh object. -/
theorem zero_dimension_rejection_witness :
    be32 imgRows0 8 = 0 ∧
    (Parse stale MNISTDataset.new (some imgRows0) (some lbl1)).1
      = Outcome.assertionFailed Assertion.imageRows ∧
    (Parse stale MNISTDataset.new (some imgRows0) (some lbl1)).2.m_buffer = none ∧
    Parse stale MNISTDataset.new (some imgRows0) (some lbl1)
      = (Outcome.assertionFailed
          (if be32 imgRows0 4 = 0 then Assertion.imageCount
           else if be32 imgRows0 8 = 0 then Assertion.imageRows else Assertion.imageCols),
         MNISTDataset.new) :=
  ⟨by decide, by decide, by decide,
    zero_dimension_rejection stale MNISTDataset.new imgRows0 lbl1 (by decide) (by decide)
      (Or.inr (Or.inl (by decide)))⟩

/-- C8 (label range rejection): with valid, agreeing headers declaring count
`c` and the `c` image records present, a label byte above 9 at any position
`n < c` makes the call stop at the failed range assertion; no code is
returned, wherever that byte is and whatever the other records hold. -/
theorem label_range_rejection (J : Indeterminate) (self : MNISTDataset) (img lbl : List Byte)
    (c h w : Nat) (hv : ValidHeaders img lbl c h w) (hfit : AllocationFits c h w)
    (himg : 16 + c * h * w ≤ img.length) (n : Nat) (hn : n < c) (b : Byte)
    (hb : lbl[8 + n]? = some b) (hbad : 9 < b.val) :
    (Parse J self (some img) (some lbl)).1 = Outcome.assertionFailed Assertion.labelRange := by
  have hv2 := hv
  obtain ⟨hi, hl, a1, a2, a3, a4, a5, a6, hc, hh, hw⟩ := hv2
  obtain ⟨hb1, hb2⟩ := fits_bounds c h w hc hfit
  have hb3 := fits_ptr c h w hfit
  have e1 : c * h * w = c * (h * w) := by ring
  have hd := Initialize_fits self w h c hc hh hfit
  have dw : (Initialize self w h c).m_width = w := by rw [hd]
  have dh : (Initialize self w h c).m_height = h := by rw [hd]
  have dS : (Initialize self w h c).m_imageSize = h * w := by rw [hd]
  have hrec : (n + 1) * (h * w) ≤ c * (h * w) := Nat.mul_le_mul_right _ (by omega)
  have e2 : (0 + n + 1) * (h * w) = (n + 1) * (h * w) := by ring
  rw [Parse_valid J self img lbl c h w hv hfit]
  exact decodeLoop_bad J (Initialize self w h c) 0 (c * (h * w)) h w dw dh dS (by omega)
    (lbl.drop 8) (img.drop 16) 0 _ n b (by rw [List.getElem?_drop]; exact hb) hbad
    (by simp; omega) (by omega) (by simp; omega) (by simp; omega) (by simp; omega)

/-- C8 at the input of the specification: the second of two labels is 10. -/
theorem label_range_rejection_witness :
    ValidHeaders img222 lbl2bad 2 2 2 ∧ lbl2bad[8 + 1]? = some 10 ∧
    (Parse stale MNISTDataset.new (some img222) (some lbl2bad)).1
      = Outcome.assertionFailed Assertion.labelRange :=
  ⟨by decide, by decide,
    label_range_rejection stale MNISTDataset.new img222 lbl2bad 2 2 2 (by decide) (by decide)
      (by decide) 1 (by decide) 10 (by decide) (by decide)⟩

/-- C9 (header decoding) fails on the code as stated for every successful
call: the image stream ends after 15 bytes, inside the columns field.  The
failed read leaves `value` as it was, the call still returns 0, and
`GetImageWidth()` is 1 although the stream holds no complete field at offset
12 (its three bytes there are zero). -/
theorem header_cut_short_returns :
    img15.length = 15 ∧ be32 img15 12 = 0 ∧
    (Parse (keeps 16777216) MNISTDataset.new (some img15) (some lbl1)).1
      = Outcome.returned 0 ∧
    GetImageWidth (Parse (keeps 16777216) MNISTDataset.new (some img15) (some lbl1)).2 = 1 := by
  decide

/-- C9 as amended: a header field read from the stream bytes `b0 b1 b2 b3`
is decoded as `b0*2^24 + b1*2^16 + b2*2^8 + b3` (the byte swap of the
little-endian host read), and on every call that returns 0 on an image
stream holding its 16 header bytes the magic is the field at offset 0,
`GetImageCount()` the field at offset 4, `GetImageHeight()` the field at
offset 8 and `GetImageWidth()` the field at offset 12 of the image stream. -/
theorem header_decoding (J : Indeterminate) (self : MNISTDataset) (img lbl : List Byte)
    (d : MNISTDataset) (b0 b1 b2 b3 : Byte) (rest : List Byte) (hi : 16 ≤ img.length)
    (hret : Parse J self (some img) (some lbl) = (Outcome.returned 0, d)) :
    (fread_s_u32 { unread := b0 :: b1 :: b2 :: b3 :: rest, eof := false }).1.map _byteswap_ulong
        = some (b0.val * 2 ^ 24 + b1.val * 2 ^ 16 + b2.val * 2 ^ 8 + b3.val) ∧
    be32 img 0 = 0x00000803 ∧ GetImageCount d = be32 img 4 ∧
    GetImageHeight d = be32 img 8 ∧ GetImageWidth d = be32 img 12 := by
  refine ⟨?_, Parse_returned_fields J self img lbl d hi hret⟩
  rw [fread_s_u32_ok _ (by simp)]
  simp only [Option.map_some', byteswap_hostWord]
  rfl

/-- C9 as amended, at a concrete input: two images of 2 x 2 and the bytes
`00 00 08 03`. -/
theorem header_decoding_witness :
    (Parse stale MNISTDataset.new (some img222) (some lbl2)).1 = Outcome.returned 0 ∧
    GetImageCount (Parse stale MNISTDataset.new (some img222) (some lbl2)).2 = 2 ∧
    (fread_s_u32 { unread := 0 :: 0 :: 8 :: 3 :: [], eof := false }).1.map _byteswap_ulong
        = some ((0 : Byte).val * 2 ^ 24 + (0 : Byte).val * 2 ^ 16 + (8 : Byte).val * 2 ^ 8
            + (3 : Byte).val) ∧
    be32 img222 0 = 0x00000803 ∧
    GetImageCount (Parse stale MNISTDataset.new (some img222) (some lbl2)).2 = be32 img222 4 ∧
    GetImageHeight (Parse stale MNISTDataset.new (some img222) (some lbl2)).2 = be32 img222 8 ∧
    GetImageWidth (Parse stale MNISTDataset.new (some img222) (some lbl2)).2 = be32 img222 12 :=
  ⟨by decide, by decide,
    header_decoding stale MNISTDataset.new img222 lbl2
      (Parse stale MNISTDataset.new (some img222) (some lbl2)).2 0 0 8 3 [] (by decide)
      (by decide)⟩

/-- C10 (label range invariant), evaluated where the code departs from it: on
the well-formed pair of one 1 x 1 image (pixel 200, label 3) the iteration
after the last record stores the value of a failed pixel read at label slot 0;
with the stale pixel value the call returns 0 and `GetCategoryData()[0]` is
200. -/
theorem label_range_violated :
    WellFormedPair img111 lbl1 1 1 1 ∧
    (∀ J : Indeterminate,
      categoryAt (Parse J MNISTDataset.new (some img111) (some lbl1)).2 0
        = some (J.pixel 1).val) ∧
    (Parse stale MNISTDataset.new (some img111) (some lbl1)).1 = Outcome.returned 0 ∧
    GetImageCount (Parse stale MNISTDataset.new (some img111) (some lbl1)).2 = 1 ∧
    categoryAt (Parse stale MNISTDataset.new (some img111) (some lbl1)).2 0 = some 200 := by
  refine ⟨by decide, fun J => ?_, by decide, by decide, by decide⟩
  rw [Parse_wellFormed J _ img111 lbl1 1 1 1 (by decide) (by decide),
    if_neg (by decide : ¬ (1 * 10 < 1 * 1))]
  split_ifs <;> rfl

/-- C12 (open failure): when the image file or the label file cannot be
opened, `Parse` returns 1 and leaves the object exactly as it was; a freshly
constructed object keeps count, width, height and image size 0 and has no
buffers. -/
theorem open_failure (J : Indeterminate) (self : MNISTDataset)
    (imageFile labelFile : Option (List Byte)) (h : imageFile = none ∨ labelFile = none) :
    Parse J self imageFile labelFile = (Outcome.returned 1, self) ∧
    (self = MNISTDataset.new →
      GetImageCount (Parse J self imageFile labelFile).2 = 0 ∧
      GetImageWidth (Parse J self imageFile labelFile).2 = 0 ∧
      GetImageHeight (Parse J self imageFile labelFile).2 = 0 ∧
      GetImageSize (Parse J self imageFile labelFile).2 = 0 ∧
      GetImageData (Parse J self imageFile labelFile).2 = none ∧
      GetCategoryData (Parse J self imageFile labelFile).2 = none ∧
      (Parse J self imageFile labelFile).2.m_buffer = none) := by
  have key : Parse J self imageFile labelFile = (Outcome.returned 1, self) := by
    cases imageFile with
    | none => rfl
    | some img =>
      cases labelFile with
      | none => rfl
      | some lbl => cases h with
        | inl h => cases h
        | inr h => cases h
  refine ⟨key, fun hnew => ?_⟩
  rw [key, hnew]
  exact ⟨rfl, rfl, rfl, rfl, rfl, rfl, rfl⟩

/-- C12 at a concrete input: the image file opens, the label file does not. -/
theorem open_failure_witness :
    Parse stale MNISTDataset.new (some img111) none = (Outcome.returned 1, MNISTDataset.new) ∧
    (MNISTDataset.new = MNISTDataset.new →
      GetImageCount (Parse stale MNISTDataset.new (some img111) none).2 = 0 ∧
      GetImageWidth (Parse stale MNISTDataset.new (some img111) none).2 = 0 ∧
      GetImageHeight (Parse stale MNISTDataset.new (some img111) none).2 = 0 ∧
      GetImageSize (Parse stale MNISTDataset.new (some img111) none).2 = 0 ∧
      GetImageData (Parse stale MNISTDataset.new (some img111) none).2 = none ∧
      GetCategoryData (Parse stale MNISTDataset.new (some img111) none).2 = none ∧
      (Parse stale MNISTDataset.new (some img111) none).2.m_buffer = none) :=
  open_failure stale MNISTDataset.new (some img111) none (Or.inr rfl)

/-- C11 (errors are values) fails on the code: the image magic is `0x802`;
the call ends at the failed magic assertion, which aborts the process, and no
result code reaches the caller. -/
theorem bad_magic_aborts :
    be32 imgBadMagic 0 = 0x00000802 ∧
    Parse stale MNISTDataset.new (some imgBadMagic) (some lbl1)
      = (Outcome.assertionFailed Assertion.imageMagic, MNISTDataset.new) := by
  decide

/-- C11 as amended: a wrong magic, a zero dimension, mismatched counts and an
out-of-range label byte are not reported as result codes: each ends the call
at a failed assertion, which aborts the process.  Once both files are open,
the only code `Parse` ever returns to its caller is 0; the code 1 is returned
when a file cannot be opened. -/
theorem errors_abort (J : Indeterminate) (self : MNISTDataset) (img lbl : List Byte)
    (herr : DetectedError img lbl) :
    (∃ a, (Parse J self (some img) (some lbl)).1 = Outcome.assertionFailed a) ∧
    (∀ img2 lbl2 code d,
      Parse J self (some img2) (some lbl2) = (Outcome.returned code, d) → code = 0) ∧
    (Parse J self none (some lbl)).1 = Outcome.returned 1 ∧
    (Parse J self (some img) none).1 = Outcome.returned 1 := by
  refine ⟨?_, fun img2 lbl2 code d h => Parse_code J self img2 lbl2 code d h, rfl, rfl⟩
  rcases herr with ⟨h4, hm⟩ | ⟨h16, hm, hz⟩ | ⟨hok, h4, hm⟩ | ⟨hok, h8, hm, hne⟩ | herr
  · refine ⟨Assertion.imageMagic, ?_⟩
    simp only [Parse, ParseHeaders_imageMagic J img lbl h4 hm]
  · refine ⟨if be32 img 4 = 0 then Assertion.imageCount
      else if be32 img 8 = 0 then Assertion.imageRows else Assertion.imageCols, ?_⟩
    simp only [Parse, ParseHeaders_zero J img lbl h16 hm hz]
  · obtain ⟨h16, h1, hc, hh, hw⟩ := hok
    refine ⟨Assertion.labelMagic, ?_⟩
    simp only [Parse, ParseHeaders_labelMagic J img lbl h16 h4 h1 hc hh hw hm]
  · obtain ⟨h16, h1, hc, hh, hw⟩ := hok
    refine ⟨Assertion.labelCount, ?_⟩
    simp only [Parse, ParseHeaders_valid J img lbl h16 h8, h1, hm, hc, hh, hw, hne, ne_eq,
      not_true_eq_false, not_false_eq_true, if_true, if_false, gt_iff_lt]
  · obtain ⟨c, h, w, n, b, hv, hfit, himg, hn, hb, hbad⟩ := herr
    exact ⟨_, Parse_bad_label J self img lbl c h w hv hfit himg n hn b hb hbad⟩

/-- C11 as amended, at a concrete input: image count 5, label count 4. -/
theorem errors_abort_witness :
    be32 img511 4 = 5 ∧ be32 lbl4 4 = 4 ∧
    ((∃ a, (Parse stale MNISTDataset.new (some img511) (some lbl4)).1
        = Outcome.assertionFailed a) ∧
     (∀ img2 lbl2 code d,
        Parse stale MNISTDataset.new (some img2) (some lbl2) = (Outcome.returned code, d) →
        code = 0) ∧
     (Parse stale MNISTDataset.new none (some lbl4)).1 = Outcome.returned 1 ∧
     (Parse stale MNISTDataset.new (some img511) none).1 = Outcome.returned 1) :=
  ⟨by decide, by decide,
    errors_abort stale MNISTDataset.new img511 lbl4
      (Or.inr (Or.inr (Or.inr (Or.inl
        ⟨⟨by decide, by decide, by decide, by decide, by decide⟩, by decide, by decide,
          by decide⟩))))⟩

/-- C14 (the loop stops after count records), evaluated where the code
departs from it.  On the well-formed pair of one 1 x 1 image the block is
`[200, 3, -, ...]` once the record is decoded, yet the call ends with
`[200, 200, 3, -, ...]`: an iteration with record index 1 = count stored a
pixel at image index 1 = c*w*h and a label at label index 1 = c.  With one
trailing byte in each stream the record index reaches 2. -/
theorem loop_runs_past_count :
    WellFormedPair img111 lbl1 1 1 1 ∧
    decodedCells img111 lbl1 1 1 1
      = [some 200, some 3, none, none, none, none, none, none, none, none, none] ∧
    (∀ J : Indeterminate,
      imageAt (Parse J MNISTDataset.new (some img111) (some lbl1)).2 (1 * 1 * 1)
        = some (J.pixel 1).val) ∧
    Parse stale MNISTDataset.new (some img111) (some lbl1)
      = (Outcome.returned 0,
          { m_count := 1, m_width := 1, m_height := 1, m_imageSize := 1,
            m_imageBuffer := some 0, m_categoryBuffer := some 1,
            m_buffer := some [some 200, some 200, some 3, none, none, none, none, none,
              none, none, none] }) ∧
    imageAt (Parse stale MNISTDataset.new (some img111) (some lbl1)).2 (1 * 1 * 1) = some 200 ∧
    categoryAt (Parse stale MNISTDataset.new (some img111) (some lbl1)).2 1 = some 3 ∧
    ValidHeaders img111trail lbl1trail 1 1 1 ∧
    (Parse stale MNISTDataset.new (some img111trail) (some lbl1trail)).2.m_buffer
      = some [some 200, some 201, some 200, some 3, none, none, none, none, none, none,
          none] := by
  refine ⟨by decide, by decide, fun J => ?_, by decide, by decide, by decide, by decide,
    by decide⟩
  rw [Parse_wellFormed J _ img111 lbl1 1 1 1 (by decide) (by decide),
    if_neg (by decide : ¬ (1 * 10 < 1 * 1))]
  split_ifs <;> rfl

/-- C16 (allocation size arithmetic is exact) fails on the code: for count,
rows and columns all `2^32 - 1` the byte count computed in `size_t` is below
the exact value, and the block has fewer slots than the pixels the header
declares. -/
theorem allocation_size_wraps :
    allocationBytes (2 ^ 32 - 1) (2 ^ 32 - 1) (2 ^ 32 - 1) = 223338299348 ∧
    ((2 ^ 32 - 1) * (2 ^ 32 - 1) * (2 ^ 32 - 1) + (2 ^ 32 - 1) * 10) * 4
      = 316912649835696421712999481300 ∧
    allocatedSlots (Initialize MNISTDataset.new (2 ^ 32 - 1) (2 ^ 32 - 1) (2 ^ 32 - 1))
      = some 55834574837 ∧
    55834574837 < (2 ^ 32 - 1) * (2 ^ 32 - 1) * (2 ^ 32 - 1) := by
  refine ⟨by decide, by decide, ?_, by decide⟩
  rw [allocatedSlots_Initialize]
  decide

/-- C16 as amended: for all header values count, rows, cols the byte size
that `Initialize` computes in 64-bit `size_t` arithmetic is the exact value
of `(count*cols*rows + count*10) * 4` reduced modulo `2^64`; it equals the
exact value if and only if that value is below `2^64`, and then the block
has `count*cols*rows + count*10` slots, enough for every declared record;
when the value is `2^64` or more (count a 32-bit value) the block has fewer
slots than the `count*cols*rows` pixels and `count` labels declared. -/
theorem allocation_size_modular (self : MNISTDataset) (count rows cols : Nat) :
    allocationBytes count cols rows = ((count * cols * rows + count * 10) * 4) % 2 ^ 64 ∧
    allocatedSlots (Initialize self cols rows count)
      = some (allocationBytes count cols rows / 4) ∧
    (allocationBytes count cols rows = (count * cols * rows + count * 10) * 4 ↔
      (count * cols * rows + count * 10) * 4 < 2 ^ 64) ∧
    ((count * cols * rows + count * 10) * 4 < 2 ^ 64 →
      allocatedSlots (Initialize self cols rows count)
        = some (count * cols * rows + count * 10)) ∧
    (count < 2 ^ 32 → 2 ^ 64 ≤ (count * cols * rows + count * 10) * 4 →
      ∃ n, allocatedSlots (Initialize self cols rows count) = some n ∧
        n < count * cols * rows + count) := by
  have hmod := allocationBytes_mod count cols rows
  unfold sizeMod at hmod
  refine ⟨hmod, allocatedSlots_Initialize self cols rows count, ⟨fun h => ?_, fun h => ?_⟩,
    fun h => ?_, fun hc hge => ⟨allocationBytes count cols rows / 4,
      allocatedSlots_Initialize self cols rows count, ?_⟩⟩
  · rw [← h, hmod]
    exact Nat.mod_lt _ (by norm_num)
  · rw [hmod, Nat.mod_eq_of_lt h]
  · rw [allocatedSlots_Initialize, hmod, Nat.mod_eq_of_lt h]
    exact congrArg some (Nat.mul_div_cancel _ (by norm_num))
  · rw [hmod]
    norm_num at hc hge ⊢
    omega

/-- C16 as amended, at a concrete input: the header of the MNIST training
set, 60000 images of 28 x 28. -/
theorem allocation_size_modular_witness :
    (60000 * 28 * 28 + 60000 * 10) * 4 < 2 ^ 64 ∧
    allocationBytes 60000 28 28 = (60000 * 28 * 28 + 60000 * 10) * 4 ∧
    allocatedSlots (Initialize MNISTDataset.new 28 28 60000)
      = some (60000 * 28 * 28 + 60000 * 10) :=
  ⟨by decide,
    (allocation_size_modular MNISTDataset.new 60000 28 28).2.2.1.mpr (by decide),
    (allocation_size_modular MNISTDataset.new 60000 28 28).2.2.2.1 (by decide)⟩

/-- C17 (shape metadata invariant) fails on the code as stated: the image
stream declares count 4 and rows `2^31` and ends inside the columns field,
which the failed read leaves at `2^31`.  The call returns 0 with buffers set
up, `GetImageCount() * GetImageSize()` is `2^64`, and the label view begins
0 slots after the image view. -/
theorem shape_offset_wraps :
    (Parse (keeps 128) MNISTDataset.new (some img15wide) (some lbl4)).1
      = Outcome.returned 0 ∧
    allocatedSlots (Parse (keeps 128) MNISTDataset.new (some img15wide) (some lbl4)).2
      = some 40 ∧
    GetImageData (Parse (keeps 128) MNISTDataset.new (some img15wide) (some lbl4)).2
      = some 0 ∧
    GetCategoryData (Parse (keeps 128) MNISTDataset.new (some img15wide) (some lbl4)).2
      = some 0 ∧
    GetImageCount (Parse (keeps 128) MNISTDataset.new (some img15wide) (some lbl4)).2
      * GetImageSize (Parse (keeps 128) MNISTDataset.new (some img15wide) (some lbl4)).2
      = 2 ^ 64 := by
  decide

/-- C17 as amended: a freshly constructed dataset satisfies
`GetImageSize() == GetImageWidth() * GetImageHeight()` with no buffers set
up, and every call of `Parse` (failed on open, stopped, or returning 0)
preserves: the image size is width times height, and once buffers are set
up the label view is the pointer
`GetImageData() + GetImageCount() * GetImageSize()` computed with wrap-around
(the product modulo `2^64`, the pointer sum modulo `2^62` slots).  So the
label view begins exactly `GetImageCount() * GetImageSize()` slots after the
image view whenever that distance stays below `2^62` slots, and after a call
that returns 0 the image view is slot 0 and the label view is slot
`(GetImageCount() * GetImageSize()) mod 2^62`. -/
theorem shape_invariant (J : Indeterminate) (self : MNISTDataset)
    (imageFile labelFile : Option (List Byte)) (hself : ShapeInvariant self) :
    ShapeInvariant MNISTDataset.new ∧
    ShapeInvariant (Parse J self imageFile labelFile).2 ∧
    ((Parse J self imageFile labelFile).2.m_buffer ≠ none →
      ∃ ib cb, GetImageData (Parse J self imageFile labelFile).2 = some ib ∧
        GetCategoryData (Parse J self imageFile labelFile).2 = some cb ∧
        (ib + GetImageCount (Parse J self imageFile labelFile).2
            * GetImageSize (Parse J self imageFile labelFile).2 < ptrMod →
          cb = ib + GetImageCount (Parse J self imageFile labelFile).2
            * GetImageSize (Parse J self imageFile labelFile).2)) ∧
    (∀ img lbl d, imageFile = some img → labelFile = some lbl →
      Parse J self imageFile labelFile = (Outcome.returned 0, d) →
      d.m_buffer ≠ none ∧ GetImageData d = some 0 ∧
        GetCategoryData d = some ((GetImageCount d * GetImageSize d) % ptrMod)) := by
  have hnew : ShapeInvariant MNISTDataset.new := ⟨rfl, fun h => absurd rfl h⟩
  have hP := ShapeInvariant_Parse J self imageFile labelFile hself
  refine ⟨hnew, hP, fun hbuf => ?_, fun img lbl d hi hl hret => ?_⟩
  · obtain ⟨ib, cb, h1, h2, h3⟩ := hP.2 hbuf
    refine ⟨ib, cb, h1, h2, fun hlt => ?_⟩
    have hpm := ptrMod_mul
    rw [h3, mulSz_eq _ _ (by omega), ptrAdd_eq _ _ hlt]
  · subst hi hl
    exact Parse_returned_views J self img lbl d hret

/-- C17 as amended, at a concrete input: a fresh dataset, and the dataset
after parsing two images of 2 x 2 (image size 4, label view 8 slots after the
image view). -/
theorem shape_invariant_witness :
    GetImageSize (Parse stale MNISTDataset.new (some img222) (some lbl2)).2 = 4 ∧
    GetImageData (Parse stale MNISTDataset.new (some img222) (some lbl2)).2 = some 0 ∧
    GetCategoryData (Parse stale MNISTDataset.new (some img222) (some lbl2)).2 = some 8 ∧
    ShapeInvariant MNISTDataset.new ∧
    ShapeInvariant (Parse stale MNISTDataset.new (some img222) (some lbl2)).2 ∧
    GetCategoryData (Parse stale MNISTDataset.new (some img222) (some lbl2)).2
      = some ((GetImageCount (Parse stale MNISTDataset.new (some img222) (some lbl2)).2
          * GetImageSize (Parse stale MNISTDataset.new (some img222) (some lbl2)).2)
            % ptrMod) :=
  ⟨by decide, by decide, by decide,
    (shape_invariant stale MNISTDataset.new (some img222) (some lbl2)
      ⟨rfl, fun h => absurd rfl h⟩).1,
    (shape_invariant stale MNISTDataset.new (some img222) (some lbl2)
      ⟨rfl, fun h => absurd rfl h⟩).2.1,
    ((shape_invariant stale MNISTDataset.new (some img222) (some lbl2)
      ⟨rfl, fun h => absurd rfl h⟩).2.2.2 img222 lbl2
        (Parse stale MNISTDataset.new (some img222) (some lbl2)).2 rfl rfl
        (by decide)).2.2⟩

end MNIST
